import Mathlib

/-!
# Verification of the yt2tg task-orchestration core

A shallow embedding, in Lean 4, of the task-orchestration core of the
yt2tg Telegram bot: the processing ledger (`src/utils/db_utils.py`),
video-id extraction (`src/utils/utils.py`), the resilient send loop,
media splitter and download workflow (`src/tasks/download_task.py`),
the abstract task wrapper (`src/tasks/task.py`), and the transcript
task's subtitle selection and failure handling
(`src/tasks/transcript_task.py`).

External effects (SQLite, the Telegram transport, yt-dlp, ffmpeg, the
LLM client) are modelled at their call boundaries: database tables
become lists of rows, transport calls become oracle functions giving
each attempt's outcome, and the side effects a task performs (status
edits, sends, ledger writes) are recorded as explicit event lists.
-/

/-! ## Processing ledger (`src/utils/db_utils.py`)

The SQLite tables are modelled as lists of rows.  `processed_videos`
has `PRIMARY KEY (chat_id, video_id)`; `processed_transcripts` has
`PRIMARY KEY (chat_id, video_id, transcript_lang)`.  SQLite's
`INSERT OR REPLACE` deletes any row with the same primary key and
inserts the new row; row order inside the table is immaterial, so the
replaced row is modelled as removed by `filter` with the fresh row
appended.
-/

structure VideoRow where
  chatId : Int
  videoId : String
  messageId : Int
  status : String
deriving DecidableEq, Repr

def videoKey (r : VideoRow) : Int × String := (r.chatId, r.videoId)

/-- `mark_as_processed` (db_utils.py:65-88): `INSERT OR REPLACE INTO
processed_videos (chat_id, video_id, message_id, status)`. -/
def mark_as_processed (chatId : Int) (videoId : String) (messageId : Int)
    (status : String) (table : List VideoRow) : List VideoRow :=
  table.filter (fun r => !(r.chatId = chatId && r.videoId = videoId)) ++
    [⟨chatId, videoId, messageId, status⟩]

/-- `is_already_processed` (db_utils.py:46-63): `SELECT status ... WHERE
chat_id = ? AND video_id = ?`, `fetchone`, then
`bool(result and result[0] == "success")`. -/
def is_already_processed (chatId : Int) (videoId : String)
    (table : List VideoRow) : Bool :=
  match table.find? (fun r => r.chatId = chatId && r.videoId = videoId) with
  | some r => r.status = "success"
  | none => false

structure TranscriptRow where
  chatId : Int
  videoId : String
  messageId : Int
  status : String
  transcriptLang : String
deriving DecidableEq, Repr

def transcriptKey (r : TranscriptRow) : Int × String × String :=
  (r.chatId, r.videoId, r.transcriptLang)

/-- `mark_transcript_processed` (db_utils.py:112-128): `INSERT OR REPLACE
INTO processed_transcripts`. -/
def mark_transcript_processed (chatId : Int) (videoId : String)
    (messageId : Int) (status : String) (transcriptLang : String)
    (table : List TranscriptRow) : List TranscriptRow :=
  table.filter (fun r =>
      !(r.chatId = chatId && r.videoId = videoId &&
        r.transcriptLang = transcriptLang)) ++
    [⟨chatId, videoId, messageId, status, transcriptLang⟩]

/-- `is_transcript_processed` (db_utils.py:130-140). -/
def is_transcript_processed (chatId : Int) (videoId : String)
    (transcriptLang : String) (table : List TranscriptRow) : Bool :=
  match table.find? (fun r =>
      r.chatId = chatId && r.videoId = videoId &&
      r.transcriptLang = transcriptLang) with
  | some r => r.status = "success"
  | none => false

/-! ## Resilient sender (`DownloadTask._send_video_with_retry`,
download_task.py:164-207)

The Telegram transport is an oracle mapping the attempt number
(1-based) to that attempt's outcome.  Each loop iteration opens the
file from the start (`with open(file_path, 'rb') as f`), calls
`send_video`, and on failure sleeps: `int(e.retry_after) + 1` seconds
on `RetryAfter`, 10 on `TimedOut`, 5 on any other exception.  The
model records the delivery result, the number of transport calls, the
sleeps performed, and the number of fresh file opens.
-/

inductive SendAttemptOutcome where
  | ok (msgId : Int)
  | retryAfter (cooldown : Nat)
  | timedOut
  | otherErr
deriving DecidableEq, Repr

structure SendTrace where
  success : Bool
  msgId : Option Int
  calls : Nat
  sleeps : List Nat
  opens : Nat
deriving DecidableEq, Repr

/-- The `for attempt in range(1, max_retries + 1)` loop, recursing over
the remaining attempt numbers. -/
def sendRetryGo (transport : Nat → SendAttemptOutcome) :
    List Nat → SendTrace
  | [] => ⟨false, none, 0, [], 0⟩
  | a :: rest =>
    match transport a with
    | .ok m => ⟨true, some m, 1, [], 1⟩
    | .retryAfter c =>
      let t := sendRetryGo transport rest
      ⟨t.success, t.msgId, t.calls + 1, (c + 1) :: t.sleeps, t.opens + 1⟩
    | .timedOut =>
      let t := sendRetryGo transport rest
      ⟨t.success, t.msgId, t.calls + 1, 10 :: t.sleeps, t.opens + 1⟩
    | .otherErr =>
      let t := sendRetryGo transport rest
      ⟨t.success, t.msgId, t.calls + 1, 5 :: t.sleeps, t.opens + 1⟩

/-- `_send_video_with_retry` with `max_retries = 5`. -/
def sendVideoWithRetry (transport : Nat → SendAttemptOutcome) : SendTrace :=
  sendRetryGo transport (List.range' 1 5)

/-! ## Video-id extraction (`get_video_id`, src/utils/utils.py:6-29)

The Python stdlib `urlparse`/`parse_qs` are the external boundary: a
URL is modelled already parsed into hostname, path, and query, where
`query` is the `parse_qs` result flattened in occurrence order (pairs
of key and value; `parse_qs` omits blank values by default).  The
string operations the source performs on the parsed pieces —
`in` (substring test), `str.strip('/')`, `str.split('/shorts/')`,
`str.split('/')`, and the `^[\w-]{11}$` regular-expression check — are
embedded directly.  `\w` is modelled over its ASCII range
(letters, digits, underscore), which covers every id the platform
issues.
-/

structure ParsedUrl where
  hostname : Option String
  path : String
  query : List (String × String)
deriving DecidableEq, Repr

/-- Python's `str.lower()`, per character (character-wise lowering
agrees with CPython on the ASCII hostnames involved). -/
def lowerStr (s : String) : String := ⟨s.toList.map Char.toLower⟩

/-- Python's substring test `sep in s` on character lists. -/
def containsSub (sep : List Char) : List Char → Bool
  | [] => sep.isEmpty
  | c :: rest => sep.isPrefixOf (c :: rest) || containsSub sep rest

/-- Python's `s.strip('/')`: drop leading and trailing slashes. -/
def stripSlashes (s : String) : String :=
  ⟨((s.toList.dropWhile (· = '/')).reverse.dropWhile (· = '/')).reverse⟩

/-- Python's `s.split('/shorts/')`: left-to-right scan, non-overlapping
occurrences of the separator are consumed, pieces between them are
emitted.  The accumulator holds the current piece reversed. -/
def splitShortsGo (acc : List Char) : List Char → List (List Char)
  | '/' :: 's' :: 'h' :: 'o' :: 'r' :: 't' :: 's' :: '/' :: rest =>
    acc.reverse :: splitShortsGo [] rest
  | c :: rest => splitShortsGo (c :: acc) rest
  | [] => [acc.reverse]

/-- Python's `s.split('/')`. -/
def splitSlashGo (acc : List Char) : List Char → List (List Char)
  | '/' :: rest => acc.reverse :: splitSlashGo [] rest
  | c :: rest => splitSlashGo (c :: acc) rest
  | [] => [acc.reverse]

/-- One character of the regex class `[\w-]` (ASCII range of `\w`). -/
def isWordDashChar (c : Char) : Bool :=
  c.isAlphanum || c = '_' || c = '-'

/-- `re.match(r'^[\w-]{11}$', vid)`: exactly 11 characters, each a word
character or a dash. -/
def matchesVid (s : String) : Bool :=
  s.toList.length = 11 && s.toList.all isWordDashChar

def allowedHosts : List String := ["youtube.com", "www.youtube.com", "youtu.be"]

/-- `get_video_id` (utils.py:6-29). -/
def get_video_id (u : ParsedUrl) : Option String :=
  let host := lowerStr (u.hostname.getD "")
  if !(allowedHosts.contains host) then none
  else
    let vid : Option String :=
      if containsSub "youtu.be".toList host.toList then
        some (stripSlashes u.path)
      else if containsSub "/shorts/".toList u.path.toList then
        some ⟨(splitSlashGo []
          ((splitShortsGo [] u.path.toList).getLastD [])).headD []⟩
      else
        (u.query.find? (fun p => p.1 = "v")).map (·.2)
    match vid with
    | some v => if v ≠ "" && matchesVid v then some v else none
    | none => none

/-- A `youtu.be/{id}` shortlink, as `urlparse` delivers it. -/
def shortlinkUrl (id : String) : ParsedUrl :=
  ⟨some "youtu.be", "/" ++ id, []⟩

/-- A `www.youtube.com/watch?v={id}` link, as `urlparse`+`parse_qs`
deliver it. -/
def watchUrl (id : String) : ParsedUrl :=
  ⟨some "www.youtube.com", "/watch", [("v", id)]⟩

/-- A `www.youtube.com/shorts/{id}` link. -/
def shortsUrl (id : String) : ParsedUrl :=
  ⟨some "www.youtube.com", "/shorts/" ++ id, []⟩

/-! ## Subtitle selection (`TranscriptTask._find_best_subtitle_file`,
transcript_task.py:237-277)

The source classifies each downloaded filename into one of six buckets
by substring tests (`f".{target}." in filename`, `".en." in filename`,
`"auto" in filename`), then returns the first file of the first
non-empty bucket in priority order.  The `if/elif/else` chain sends
each filename to exactly one bucket, so each bucket equals a `filter`
of the file list with that branch's compound condition.
-/

def hasLangTag (lang : String) (f : String) : Bool :=
  containsSub ("." ++ lang ++ ".").toList f.toList

def hasAutoTag (f : String) : Bool :=
  containsSub "auto".toList f.toList

/-- `_find_best_subtitle_file`. -/
def findBestSubtitleFile (target : String) (files : List String) :
    Option String :=
  let manualTarget := files.filter (fun f => hasLangTag target f && !hasAutoTag f)
  let autoTarget := files.filter (fun f => hasLangTag target f && hasAutoTag f)
  let manualEn := files.filter (fun f =>
    !hasLangTag target f && hasLangTag "en" f && !hasAutoTag f)
  let autoEn := files.filter (fun f =>
    !hasLangTag target f && hasLangTag "en" f && hasAutoTag f)
  let manualOther := files.filter (fun f =>
    !hasLangTag target f && !hasLangTag "en" f && !hasAutoTag f)
  let autoOther := files.filter (fun f =>
    !hasLangTag target f && !hasLangTag "en" f && hasAutoTag f)
  match manualTarget with
  | f :: _ => some f
  | [] => match autoTarget with
    | f :: _ => some f
    | [] => match manualEn with
      | f :: _ => some f
      | [] => match autoEn with
        | f :: _ => some f
        | [] => match manualOther with
          | f :: _ => some f
          | [] => match autoOther with
            | f :: _ => some f
            | [] => files.headD "" |> (fun d => if files.isEmpty then none else some d)

/-- Priority rank of a file under the bucket order of
`_find_best_subtitle_file` (0 is best). -/
def subtitleRank (target : String) (f : String) : Nat :=
  if hasLangTag target f then (if hasAutoTag f then 1 else 0)
  else if hasLangTag "en" f then (if hasAutoTag f then 3 else 2)
  else (if hasAutoTag f then 5 else 4)

/-! ## Media splitter (`DownloadTask.split_video`,
download_task.py:240-282)

The ffmpeg duration probe is the external boundary: the model receives
the already-parsed total duration (`total_dur = int(h*3600 + m*60 + s)`,
an integer number of seconds).  Continuous quantities (megabyte sizes,
start times, durations) are rationals.  Each produced part is recorded
with its output filename, start time (`max(i*base_dur - overlap_sec*i,
0)`) and extracted duration (`base_dur + (overlap_sec if i < chunks-1
else 0)`).
-/

structure MediaPart where
  name : String
  start : ℚ
  dur : ℚ
deriving DecidableEq, Repr

/-- `split_video(input_path, max_size_mb=40, overlap_sec=5)`:
`sizeMB` is `os.path.getsize(input_path) / (1024*1024)` and `totalDur`
the probed integer duration. -/
def splitVideo (videoId : Option String) (sizeMB maxSizeMB : ℚ)
    (totalDur : ℤ) (overlapSec : ℚ) : List MediaPart :=
  let chunks : ℕ := (⌈sizeMB / maxSizeMB⌉).toNat
  let baseDur : ℚ := (totalDur : ℚ) / (chunks : ℚ)
  (List.range chunks).map (fun (i : ℕ) =>
    { name := "part_" ++ toString (i + 1) ++ "_" ++
        (videoId.getD "None") ++ ".mp4"
      start := max ((i : ℚ) * baseDur - overlapSec * (i : ℚ)) 0
      dur := baseDur + (if i < chunks - 1 then overlapSec else 0) })

/-! ## Tasks (`src/tasks/task.py`, `src/tasks/download_task.py`,
`src/tasks/transcript_task.py`)

A task's externally visible behaviour is a list of events: status-message
edits (`_safe_edit_status` / `status_msg.edit_text`), calls to the
resilient sender for a part, and ledger writes.  Exceptions are the
values of `Exc`; Python's `asyncio.TimeoutError`, `yt_dlp` `DownloadError`
and all remaining exceptions are the three constructors.
-/

inductive Exc where
  | timeoutErr
  | downloadErr (msg : String)
  | genericErr (msg : String)
deriving DecidableEq, Repr

inductive Ev where
  | editStatus (text : String)
  | sendPart (idx total : Nat)
  | videoLedger (chatId : Int) (videoId : String) (messageId : Int)
      (status : String)
  | transcriptLedger (chatId : Int) (videoId : String) (messageId : Int)
      (status : String) (lang : String)
deriving DecidableEq, Repr

/-- How a task's `_process()` coroutine behaves under `run()`:
either it resolves (within the 600-second window, with the events it
performed and its result), or it never resolves within that window. -/
inductive ProcBeh where
  | resolves (events : List Ev) (result : Except Exc Unit)
  | hangs (events : List Ev)
deriving Repr

/-- What one execution of `run()` leaves behind: the events performed,
the exception escaping `run()` (if any), and whether `cleanup()` ran. -/
structure RunResult where
  events : List Ev
  raised : Option Exc
  cleanupRan : Bool
deriving DecidableEq, Repr

/-- `Task.run` (task.py:27-37): `try: await self._process() except
Exception: raise finally: await self.cleanup()`.  There is no
`asyncio.wait_for`, so a `_process` that never resolves means `run`
never completes (`none`); an exception escaping `_process` is
re-raised after cleanup. -/
def Task.runModel (beh : ProcBeh) : Option RunResult :=
  match beh with
  | .hangs _ => none
  | .resolves events result =>
    some { events := events
           raised := match result with
             | .ok _ => none
             | .error e => some e
           cleanupRan := true }

/-- The state of a `DownloadTask` relevant to its workflow
(download_task.py:31-69). -/
structure DTask where
  chatId : Int
  videoId : Option String
  url : String
  userId : Int
  originalMessageId : Int
  statusMsgId : Int
  createdAt : Nat
  objectId : Nat
deriving DecidableEq, Repr

/-- The state of a `TranscriptTask` (transcript_task.py:59-95).
`objectId` stands for the CPython object identity, which is what the
default `__eq__`/`__hash__` inherited from `object` compare. -/
structure TTask where
  chatId : Int
  videoId : Option String
  url : String
  targetLangCode : String
  targetLanguage : String
  title : String
  safeTitle : String
  userId : Int
  statusMsgId : Int
  createdAt : Nat
  objectId : Nat
deriving DecidableEq, Repr

/-- The events of the timeout branch of `DownloadTask.run`
(download_task.py:78-82). -/
def downloadTimeoutEvents (t : DTask) : List Ev :=
  Ev.editStatus "❌ Task timed out after 10 minutes." ::
    (match t.videoId with
     | some v => [Ev.videoLedger t.chatId v t.originalMessageId "failed"]
     | none => [])

/-- `DownloadTask._handle_download_error` (download_task.py:220-238). -/
def handleDownloadErrorEvents (cookiesAvailable : Bool) (t : DTask)
    (errorMessage : String) : List Ev :=
  let msg :=
    if containsSub "Sign in to confirm your age".toList errorMessage.toList then
      (if cookiesAvailable then
        "❌ Age restricted video failed. Cookies might be invalid/expired."
      else
        "❌ Age restricted video failed. Add a valid 'cookies.txt'.")
    else if containsSub "unavailable".toList (lowerStr errorMessage).toList then
      "❌ Video is unavailable."
    else
      "❌ Download error: " ++ ⟨errorMessage.toList.take 100⟩
  Ev.editStatus msg ::
    (match t.videoId with
     | some v => [Ev.videoLedger t.chatId v t.originalMessageId "failed"]
     | none => [])

/-- The events of the generic `except Exception` branch of
`DownloadTask.run` (download_task.py:86-90). -/
def downloadGenericErrorEvents (t : DTask) : List Ev :=
  Ev.editStatus "❌ Error processing video." ::
    (match t.videoId with
     | some v => [Ev.videoLedger t.chatId v t.originalMessageId "failed"]
     | none => [])

/-- `DownloadTask.run` (download_task.py:71-93): `_process` is wrapped
in `asyncio.wait_for(..., timeout=600)`; `asyncio.TimeoutError`,
`DownloadError` and `Exception` are each caught (nothing re-raised),
and `cleanup()` runs in the `finally`. -/
def DownloadTask.runModel (cookiesAvailable : Bool) (t : DTask)
    (beh : ProcBeh) : RunResult :=
  match beh with
  | .hangs events =>
    { events := events ++ downloadTimeoutEvents t
      raised := none
      cleanupRan := true }
  | .resolves events result =>
    { events := events ++
        (match result with
         | .ok _ => []
         | .error .timeoutErr => downloadTimeoutEvents t
         | .error (.downloadErr m) => handleDownloadErrorEvents cookiesAvailable t m
         | .error (.genericErr _) => downloadGenericErrorEvents t)
      raised := none
      cleanupRan := true }

/-! ### `DownloadTask._process` (download_task.py:95-162)

External boundaries: the yt-dlp metadata fetch and payload download
may each raise (`metaErr`, `dlErr`); the downloaded file's presence
and byte size come from the filesystem (`fileExists`, `sizeBytes`);
the ffmpeg duration probe yields `duration`; and each call to
`_send_video_with_retry` has an outcome `sendResult k` (`some id` =
`(True, id)`, `none` = `(False, None)`), indexed by the 1-based part
number (index 1 for the single-file branch).  Status-edit texts that
interpolate runtime numbers are carried without the number. -/

structure DEnv where
  title : String
  metaErr : Option Exc
  dlErr : Option Exc
  fileExists : Bool
  sizeBytes : ℕ
  duration : ℤ
  sendResult : ℕ → Option Int

/-- The `for idx, part in enumerate(parts, start=1)` send loop
(download_task.py:144-150): edits the status, asks the resilient
sender, and raises `Exception(f"Failed to send part {idx}/{n}")` on
the first failed part. -/
def sendPartsLoop (sendResult : ℕ → Option Int) (total : ℕ) :
    List ℕ → List Ev × Except Exc Unit
  | [] => ([], .ok ())
  | idx :: rest =>
    let evs := [Ev.editStatus ("📤 Sending part " ++ toString idx ++ "/" ++
                  toString total ++ "..."),
                Ev.sendPart idx total]
    match sendResult idx with
    | some _ =>
      let pr := sendPartsLoop sendResult total rest
      (evs ++ pr.1, pr.2)
    | none =>
      (evs, .error (.genericErr ("Failed to send part " ++ toString idx ++
        "/" ++ toString total)))

/-- `DownloadTask._process`.  The target chat resolution
(download_task.py:131-135) is folded into `t.chatId` being the
requesting chat and the ledger writes using it, as the claims under
verification all concern a private chat where the two coincide. -/
def DownloadTask.processModel (t : DTask) (env : DEnv) :
    List Ev × Except Exc Unit :=
  match env.metaErr with
  | some e => ([], .error e)
  | none =>
    let evs0 := [Ev.editStatus "⏬ Downloading video (360p)..."]
    match env.dlErr with
    | some e => (evs0, .error e)
    | none =>
      if !env.fileExists || env.sizeBytes < 1024 then
        (evs0, .error (.genericErr "Downloaded file is missing or too small."))
      else
        let sizeMB : ℚ := (env.sizeBytes : ℚ) / (1024 * 1024)
        if sizeMB > 50 then
          let parts := splitVideo t.videoId sizeMB 40 env.duration 5
          let n := parts.length
          let evs1 := evs0 ++ [Ev.editStatus "📦 Downloaded. Splitting..."]
          let pr := sendPartsLoop env.sendResult n (List.range' 1 n)
          match pr.2 with
          | .error e => (evs1 ++ pr.1, .error e)
          | .ok _ =>
            (evs1 ++ pr.1 ++
              (match t.videoId with
               | some v =>
                 [Ev.videoLedger t.chatId v t.originalMessageId "success",
                  Ev.editStatus "✅ Sent to Telegram"]
               | none => []),
             .ok ())
        else
          let evs1 := evs0 ++ [Ev.sendPart 1 1]
          match env.sendResult 1 with
          | none => (evs1, .error (.genericErr "Failed to send the video."))
          | some _ =>
            (evs1 ++
              (match t.videoId with
               | some v =>
                 [Ev.videoLedger t.chatId v t.originalMessageId "success",
                  Ev.editStatus "✅ Sent to Telegram"]
               | none => []),
             .ok ())

/-- `DownloadTask.run` applied to a `_process` that resolves with the
behaviour determined by `env`. -/
def DownloadTask.runOn (cookiesAvailable : Bool) (t : DTask) (env : DEnv) :
    RunResult :=
  let p := DownloadTask.processModel t env
  DownloadTask.runModel cookiesAvailable t (.resolves p.1 p.2)

/-! ### `TranscriptTask._process` (transcript_task.py:104-196)

The body of the big `try` block (subtitle download, parsing, the two
LLM calls, the two document sends, the success ledger write) is
abstracted as the events it performed (`bodyEvents`) and whether it
raised (`bodyErr`).  The `except` handler (transcript_task.py:192-196)
is modelled faithfully: it first edits the status message — an
operation that can itself raise (`failEditErr`), in which case the
"failed" ledger write never happens and the exception escapes
`_process` — and then writes the "failed" row keyed by the status
message's id. -/

structure TEnv where
  bodyEvents : List Ev
  bodyErr : Option Exc
  failEditErr : Option Exc

def excMsg : Exc → String
  | .timeoutErr => "TimeoutError"
  | .downloadErr m => m
  | .genericErr m => m

/-- `TranscriptTask._process`. -/
def TranscriptTask.processModel (t : TTask) (env : TEnv) :
    List Ev × Except Exc Unit :=
  match t.videoId with
  | none =>
    ([Ev.editStatus "❌ Invalid YouTube URL.",
      Ev.transcriptLedger t.chatId "unknown" t.statusMsgId "failed"
        t.targetLangCode],
     .ok ())
  | some vid =>
    match env.bodyErr with
    | none => (env.bodyEvents, .ok ())
    | some e =>
      match env.failEditErr with
      | some e2 => (env.bodyEvents, .error e2)
      | none =>
        (env.bodyEvents ++
          [Ev.editStatus ("❌ Failed to generate transcript: " ++ excMsg e),
           Ev.transcriptLedger t.chatId vid t.statusMsgId "failed"
             t.targetLangCode],
         .ok ())

/-- `TranscriptTask` inherits `run` from `Task` unchanged
(transcript_task.py defines no `run`), so its boundary behaviour is
`Task.runModel` applied to its `_process`. -/
def TranscriptTask.runOn (t : TTask) (env : TEnv) : Option RunResult :=
  let p := TranscriptTask.processModel t env
  Task.runModel (.resolves p.1 p.2)

/-! ### Task identity (`DownloadTask.__eq__`/`__hash__`,
download_task.py:61-69; `TranscriptTask` defines neither)

`DownloadTask` compares and hashes by `(update.effective_chat.id,
video_id)`.  `TranscriptTask` and the base `Task` define no
`__eq__`/`__hash__`, so CPython's defaults apply: identity comparison
and an identity-derived hash (`objectId` in the model).  Comparing a
`DownloadTask` with a `TranscriptTask` hits the `isinstance` guard
(or the identity default) and yields `False`. -/

inductive TaskObj where
  | download (d : DTask)
  | transcript (tr : TTask)
deriving DecidableEq, Repr

/-- Python `==` on task objects. -/
def taskEq : TaskObj → TaskObj → Bool
  | .download d1, .download d2 =>
    d1.chatId = d2.chatId && d1.videoId = d2.videoId
  | .transcript t1, .transcript t2 => t1.objectId = t2.objectId
  | _, _ => false

/-- The value Python's `hash` is computed from: `hash((chat_id,
video_id))` for a `DownloadTask`, the identity-based default for a
`TranscriptTask`. -/
inductive TaskHashKey where
  | pair (chatId : Int) (videoId : Option String)
  | ident (objectId : Nat)
deriving DecidableEq, Repr

def taskHashKey : TaskObj → TaskHashKey
  | .download d => .pair d.chatId d.videoId
  | .transcript t => .ident t.objectId

/-! ## Helper lemmas -/

lemma sendRetryGo_calls_le (transport : Nat → SendAttemptOutcome) :
    ∀ l : List Nat, (sendRetryGo transport l).calls ≤ l.length ∧
      (sendRetryGo transport l).opens = (sendRetryGo transport l).calls := by
  intro l
  induction l with
  | nil => simp [sendRetryGo]
  | cons a rest ih =>
    cases h : transport a <;>
      simp [sendRetryGo, h, ih.1, ih.2, Nat.succ_le_succ]

/-- C4 helper: a transport that always times out exhausts any attempt
list. -/
lemma sendRetryGo_all_timeout (transport : Nat → SendAttemptOutcome)
    (h : ∀ a, transport a = .timedOut) :
    ∀ l : List Nat, sendRetryGo transport l =
      ⟨false, none, l.length, l.map (fun _ => 10), l.length⟩ := by
  intro l
  induction l with
  | nil => simp [sendRetryGo]
  | cons a rest ih => simp [sendRetryGo, h a, ih]

/-- C4: `_send_video_with_retry` makes at most 5 delivery attempts; on a
rate-limit signal it sleeps the transport's cooldown plus one second and
retries with the file re-opened from the start (one fresh open per
attempt); two rate-limits then a success yield `(True, message id)` on
the third attempt; a transport that always times out yields
`(False, None)` after exactly 5 attempts. -/
theorem resilient_sender_spec :
    (∀ transport : Nat → SendAttemptOutcome,
      (sendVideoWithRetry transport).calls ≤ 5 ∧
      (sendVideoWithRetry transport).opens = (sendVideoWithRetry transport).calls) ∧
    (∀ (c1 c2 : Nat) (m : Int) (transport : Nat → SendAttemptOutcome),
      transport 1 = .retryAfter c1 → transport 2 = .retryAfter c2 →
      transport 3 = .ok m →
      sendVideoWithRetry transport = ⟨true, some m, 3, [c1 + 1, c2 + 1], 3⟩) ∧
    (∀ transport : Nat → SendAttemptOutcome,
      (∀ a, transport a = .timedOut) →
      sendVideoWithRetry transport =
        ⟨false, none, 5, [10, 10, 10, 10, 10], 5⟩) := by
  refine ⟨fun transport => ?_, fun c1 c2 m transport h1 h2 h3 => ?_,
    fun transport h => ?_⟩
  · have := sendRetryGo_calls_le transport (List.range' 1 5)
    exact ⟨this.1, this.2⟩
  · show sendRetryGo transport [1, 2, 3, 4, 5] = _
    simp [sendRetryGo, h1, h2, h3]
  · have := sendRetryGo_all_timeout transport h (List.range' 1 5)
    simpa using this

/-- Witness for `resilient_sender_spec`: a concrete transport that is
rate-limited twice (cooldowns 7 and 2) and then delivers message 99. -/
theorem resilient_sender_spec_witness :
    sendVideoWithRetry (fun a =>
      if a = 1 then .retryAfter 7 else if a = 2 then .retryAfter 2
      else .ok 99) = ⟨true, some 99, 3, [8, 3], 3⟩ :=
  resilient_sender_spec.2.1 7 2 99 _ rfl rfl rfl

/-- C6 helper: rows surviving the key-removal filter never carry the
removed key. -/
lemma filter_videoKey_nil (chat : Int) (vid : String) (l : List VideoRow) :
    (l.filter (fun r => !(r.chatId = chat && r.videoId = vid))).filter
      (fun r => videoKey r = (chat, vid)) = [] := by
  rw [List.filter_filter]
  apply List.filter_eq_nil_iff.mpr
  intro r _
  by_cases h1 : r.chatId = chat <;> by_cases h2 : r.videoId = vid <;>
    simp [videoKey, h1, h2]

/-- C6 helper: one video-table upsert preserves key uniqueness. -/
lemma mark_as_processed_nodup (chat : Int) (vid : String) (m : Int)
    (s : String) (table : List VideoRow)
    (h : (table.map videoKey).Nodup) :
    ((mark_as_processed chat vid m s table).map videoKey).Nodup := by
  unfold mark_as_processed
  rw [List.map_append]
  apply List.Nodup.append
  · exact ((List.filter_sublist table).map videoKey).nodup h
  · simp
  · intro k hk1 hk2
    simp only [List.map_cons, List.map_nil, List.mem_singleton] at hk2
    subst hk2
    rcases List.mem_map.mp hk1 with ⟨r, hr, hkey⟩
    have hp := List.of_mem_filter hr
    simp only [videoKey, Prod.mk.injEq] at hkey
    simp [hkey.1, hkey.2] at hp

/-- C6 helper: transcript-table version of `filter_videoKey_nil`. -/
lemma filter_transcriptKey_nil (chat : Int) (vid lang : String)
    (l : List TranscriptRow) :
    (l.filter (fun r => !(r.chatId = chat && r.videoId = vid &&
        r.transcriptLang = lang))).filter
      (fun r => transcriptKey r = (chat, vid, lang)) = [] := by
  rw [List.filter_filter]
  apply List.filter_eq_nil_iff.mpr
  intro r _
  by_cases h1 : r.chatId = chat <;> by_cases h2 : r.videoId = vid <;>
    by_cases h3 : r.transcriptLang = lang <;>
    simp [transcriptKey, h1, h2, h3]

/-- C6 helper: one transcript-table upsert preserves key uniqueness. -/
lemma mark_transcript_processed_nodup (chat : Int) (vid : String) (m : Int)
    (s lang : String) (table : List TranscriptRow)
    (h : (table.map transcriptKey).Nodup) :
    ((mark_transcript_processed chat vid m s lang table).map
      transcriptKey).Nodup := by
  unfold mark_transcript_processed
  rw [List.map_append]
  apply List.Nodup.append
  · exact ((List.filter_sublist table).map transcriptKey).nodup h
  · simp
  · intro k hk1 hk2
    simp only [List.map_cons, List.map_nil, List.mem_singleton] at hk2
    subst hk2
    rcases List.mem_map.mp hk1 with ⟨r, hr, hkey⟩
    have hp := List.of_mem_filter hr
    simp only [transcriptKey, Prod.mk.injEq] at hkey
    simp [hkey.1, hkey.2.1, hkey.2.2] at hp

/-- C6 helper: any fold of video-table upserts over a unique-key table
keeps keys unique. -/
lemma foldl_mark_nodup (ops : List (Int × String × Int × String)) :
    ∀ table : List VideoRow, (table.map videoKey).Nodup →
      (((ops.foldl (fun tb o => mark_as_processed o.1 o.2.1 o.2.2.1 o.2.2.2 tb)
        table)).map videoKey).Nodup := by
  induction ops with
  | nil => intro table h; simpa using h
  | cons o rest ih =>
    intro table h
    exact ih _ (mark_as_processed_nodup o.1 o.2.1 o.2.2.1 o.2.2.2 table h)

/-- C6: ledger upsert is last-write-wins and preserves at-most-one-row-
per-key: writing "processing" then "success" for the same key leaves
exactly one row for that key, with status "success" and the second
write's message id; a single upsert preserves key uniqueness, and hence
no sequence of upserts starting from an empty table ever yields two rows
with the same key.  Both the video table (key `(chat, video)`) and the
transcript table (key `(chat, video, language)`) are covered. -/
theorem ledger_upsert_last_write_wins
    (table : List VideoRow) (ttable : List TranscriptRow)
    (chat : Int) (vid lang : String) (m1 m2 : Int)
    (hwf : (table.map videoKey).Nodup)
    (htwf : (ttable.map transcriptKey).Nodup) :
    ((mark_as_processed chat vid m2 "success"
        (mark_as_processed chat vid m1 "processing" table)).filter
      (fun r => videoKey r = (chat, vid))) = [⟨chat, vid, m2, "success"⟩] ∧
    ((mark_as_processed chat vid m2 "success"
        (mark_as_processed chat vid m1 "processing" table)).map
      videoKey).Nodup ∧
    (∀ ops : List (Int × String × Int × String),
      (((ops.foldl (fun tb o => mark_as_processed o.1 o.2.1 o.2.2.1 o.2.2.2 tb)
        ([] : List VideoRow))).map videoKey).Nodup) ∧
    ((mark_transcript_processed chat vid m2 "success" lang
        (mark_transcript_processed chat vid m1 "processing" lang ttable)).filter
      (fun r => transcriptKey r = (chat, vid, lang))) =
      [⟨chat, vid, m2, "success", lang⟩] ∧
    ((mark_transcript_processed chat vid m2 "success" lang
        (mark_transcript_processed chat vid m1 "processing" lang ttable)).map
      transcriptKey).Nodup := by
  refine ⟨?_, ?_, ?_, ?_, ?_⟩
  · conv_lhs =>
      rw [mark_as_processed, List.filter_append, filter_videoKey_nil]
    simp [videoKey]
  · exact mark_as_processed_nodup _ _ _ _ _
      (mark_as_processed_nodup _ _ _ _ _ hwf)
  · intro ops
    exact foldl_mark_nodup ops [] (by simp)
  · conv_lhs =>
      rw [mark_transcript_processed, List.filter_append,
        filter_transcriptKey_nil]
    simp [transcriptKey]
  · exact mark_transcript_processed_nodup _ _ _ _ _ _
      (mark_transcript_processed_nodup _ _ _ _ _ _ htwf)

/-- Witness for `ledger_upsert_last_write_wins`: the empty tables,
key `(7, "dQw4w9WgXcQ")`, language `"es"`, message ids 100 then 200. -/
theorem ledger_upsert_last_write_wins_witness :
    ((mark_as_processed 7 "dQw4w9WgXcQ" 200 "success"
        (mark_as_processed 7 "dQw4w9WgXcQ" 100 "processing" [])).filter
      (fun r => videoKey r = (7, "dQw4w9WgXcQ"))) =
      [⟨7, "dQw4w9WgXcQ", 200, "success"⟩] :=
  (ledger_upsert_last_write_wins [] [] 7 "dQw4w9WgXcQ" "es" 100 200
    (by simp) (by simp)).1

/-- C10 helper: on a unique-key table, `find?` with the key predicate
returns exactly the member row with that key. -/
lemma find?_videoKey_of_mem (chat : Int) (vid : String) (m : Int)
    (s : String) (table : List VideoRow)
    (hwf : (table.map videoKey).Nodup)
    (hm : VideoRow.mk chat vid m s ∈ table) :
    table.find? (fun r => r.chatId = chat && r.videoId = vid) =
      some ⟨chat, vid, m, s⟩ := by
  rcases h : table.find? (fun r => r.chatId = chat && r.videoId = vid) with
    _ | r
  · exfalso
    have := List.find?_eq_none.mp h _ hm
    simp at this
  · have hrmem := List.mem_of_find?_eq_some h
    have hrp := List.find?_some h
    simp only [Bool.and_eq_true, decide_eq_true_eq] at hrp
    have : r = ⟨chat, vid, m, s⟩ := by
      have := List.inj_on_of_nodup_map hwf hrmem hm
      apply this
      simp [videoKey, hrp.1, hrp.2]
    rw [h, this]

/-- C10 helper: transcript-table version. -/
lemma find?_transcriptKey_of_mem (chat : Int) (vid lang : String) (m : Int)
    (s : String) (table : List TranscriptRow)
    (hwf : (table.map transcriptKey).Nodup)
    (hm : TranscriptRow.mk chat vid m s lang ∈ table) :
    table.find? (fun r => r.chatId = chat && r.videoId = vid &&
      r.transcriptLang = lang) = some ⟨chat, vid, m, s, lang⟩ := by
  rcases h : table.find? (fun r => r.chatId = chat && r.videoId = vid &&
      r.transcriptLang = lang) with _ | r
  · exfalso
    have := List.find?_eq_none.mp h _ hm
    simp at this
  · have hrmem := List.mem_of_find?_eq_some h
    have hrp := List.find?_some h
    simp only [Bool.and_eq_true, decide_eq_true_eq] at hrp
    have : r = ⟨chat, vid, m, s, lang⟩ := by
      have := List.inj_on_of_nodup_map hwf hrmem hm
      apply this
      simp [transcriptKey, hrp.1.1, hrp.1.2, hrp.2]
    rw [h, this]

/-- C10: the already-processed queries treat only terminal success as
processed: on a unique-key table, `is_already_processed` (resp.
`is_transcript_processed`) returns `True` iff a row exists for exactly
that key with status `"success"`; a `"processing"` or `"failed"` row,
or no row at all, yields `False`. -/
theorem already_processed_iff_success
    (table : List VideoRow) (ttable : List TranscriptRow)
    (chat : Int) (vid lang : String)
    (hwf : (table.map videoKey).Nodup)
    (htwf : (ttable.map transcriptKey).Nodup) :
    (is_already_processed chat vid table = true ↔
      ∃ m : Int, VideoRow.mk chat vid m "success" ∈ table) ∧
    (is_transcript_processed chat vid lang ttable = true ↔
      ∃ m : Int, TranscriptRow.mk chat vid m "success" lang ∈ ttable) := by
  constructor
  · constructor
    · intro h
      unfold is_already_processed at h
      rcases hf : table.find? (fun r => r.chatId = chat && r.videoId = vid)
        with _ | r
      · rw [hf] at h; simp at h
      · rw [hf] at h
        simp only [decide_eq_true_eq] at h
        have hrmem := List.mem_of_find?_eq_some hf
        have hrp := List.find?_some hf
        simp only [Bool.and_eq_true, decide_eq_true_eq] at hrp
        refine ⟨r.messageId, ?_⟩
        have : r = ⟨chat, vid, r.messageId, "success"⟩ := by
          cases r
          simp_all
        rwa [this] at hrmem
    · intro ⟨m, hm⟩
      unfold is_already_processed
      rw [find?_videoKey_of_mem chat vid m "success" table hwf hm]
      simp
  · constructor
    · intro h
      unfold is_transcript_processed at h
      rcases hf : ttable.find? (fun r => r.chatId = chat &&
          r.videoId = vid && r.transcriptLang = lang) with _ | r
      · rw [hf] at h; simp at h
      · rw [hf] at h
        simp only [decide_eq_true_eq] at h
        have hrmem := List.mem_of_find?_eq_some hf
        have hrp := List.find?_some hf
        simp only [Bool.and_eq_true, decide_eq_true_eq] at hrp
        refine ⟨r.messageId, ?_⟩
        have : r = ⟨chat, vid, r.messageId, "success", lang⟩ := by
          cases r
          simp_all
        rwa [this] at hrmem
    · intro ⟨m, hm⟩
      unfold is_transcript_processed
      rw [find?_transcriptKey_of_mem chat vid lang m "success" ttable htwf hm]
      simp

/-- Witness for `already_processed_iff_success`: a table holding a
"failed" row and a "success" row for different videos in chat 7. -/
theorem already_processed_iff_success_witness :
    is_already_processed 7 "aaaaaaaaaaa" [⟨7, "aaaaaaaaaaa", 1, "success"⟩,
      ⟨7, "bbbbbbbbbbb", 2, "failed"⟩] = true ∧
    is_transcript_processed 7 "aaaaaaaaaaa" "es"
      [⟨7, "aaaaaaaaaaa", 1, "failed", "es"⟩] = false := by
  constructor
  · exact (already_processed_iff_success
      [⟨7, "aaaaaaaaaaa", 1, "success"⟩, ⟨7, "bbbbbbbbbbb", 2, "failed"⟩]
      [] 7 "aaaaaaaaaaa" "es" (by simp [videoKey]) (by simp)).1.mpr
      ⟨1, by simp⟩
  · by_contra h
    simp only [Bool.not_eq_false] at h
    rcases (already_processed_iff_success []
      [⟨7, "aaaaaaaaaaa", 1, "failed", "es"⟩] 7 "aaaaaaaaaaa" "es"
      (by simp) (by simp [transcriptKey])).2.mp h with ⟨m, hm⟩
    simp at hm

/-! ## C7: task identity -/

/-- C7 counterexample: two distinct `TranscriptTask` instances with the
same chat id, the same content id and the same language are *not*
equal — `TranscriptTask` defines no `__eq__`/`__hash__`
(transcript_task.py defines neither, and neither does the base `Task`),
so CPython's identity-based defaults apply, refuting the claim that
both task variants compare by `(chat, content id)`. -/
theorem transcript_task_identity_eq_counterexample :
    taskEq
      (.transcript ⟨7, some "dQw4w9WgXcQ", "https://youtu.be/dQw4w9WgXcQ",
        "es", "Spanish", "T", "T", 1, 10, 0, 0⟩)
      (.transcript ⟨7, some "dQw4w9WgXcQ", "https://youtu.be/dQw4w9WgXcQ",
        "es", "Spanish", "T", "T", 1, 10, 0, 1⟩) = false ∧
    taskHashKey
      (.transcript ⟨7, some "dQw4w9WgXcQ", "https://youtu.be/dQw4w9WgXcQ",
        "es", "Spanish", "T", "T", 1, 10, 0, 0⟩) ≠
    taskHashKey
      (.transcript ⟨7, some "dQw4w9WgXcQ", "https://youtu.be/dQw4w9WgXcQ",
        "es", "Spanish", "T", "T", 1, 10, 0, 1⟩) := by
  constructor
  · rfl
  · decide

/-- C7 (amended): `DownloadTask` equality and the value its hash is
computed from are determined solely by `(chat id, video id)` — any two
`DownloadTask`s with equal chat id and video id are equal and
hash-equal regardless of URL, status message, timestamps, user and
identity; `TranscriptTask`, lacking `__eq__`/`__hash__`, compares and
hashes by object identity instead. -/
theorem task_identity_spec :
    (∀ d1 d2 : DTask, taskEq (.download d1) (.download d2) = true ↔
      (d1.chatId = d2.chatId ∧ d1.videoId = d2.videoId)) ∧
    (∀ d1 d2 : DTask, d1.chatId = d2.chatId → d1.videoId = d2.videoId →
      taskHashKey (.download d1) = taskHashKey (.download d2)) ∧
    (∀ t1 t2 : TTask, taskEq (.transcript t1) (.transcript t2) = true ↔
      t1.objectId = t2.objectId) := by
  refine ⟨fun d1 d2 => ?_, fun d1 d2 h1 h2 => ?_, fun t1 t2 => ?_⟩
  · simp [taskEq]
  · simp [taskHashKey, h1, h2]
  · simp [taskEq]

/-- Witness for `task_identity_spec`: two `DownloadTask`s sharing chat 7
and video id `"dQw4w9WgXcQ"` but nothing else compare equal and their
hash keys agree. -/
theorem task_identity_spec_witness :
    taskEq
      (.download ⟨7, some "dQw4w9WgXcQ", "https://youtu.be/dQw4w9WgXcQ",
        1, 10, 11, 0, 0⟩)
      (.download ⟨7, some "dQw4w9WgXcQ",
        "https://www.youtube.com/watch?v=dQw4w9WgXcQ", 2, 20, 21, 5, 1⟩) =
      true ∧
    taskHashKey
      (.download ⟨7, some "dQw4w9WgXcQ", "https://youtu.be/dQw4w9WgXcQ",
        1, 10, 11, 0, 0⟩) =
    taskHashKey
      (.download ⟨7, some "dQw4w9WgXcQ",
        "https://www.youtube.com/watch?v=dQw4w9WgXcQ", 2, 20, 21, 5, 1⟩) :=
  ⟨(task_identity_spec.1 _ _).mpr ⟨rfl, rfl⟩,
   task_identity_spec.2.1 _ _ rfl rfl⟩

/-! ## C1 and C3: the task boundary (`run`) -/

/-- C1 counterexample: an exception escaping `TranscriptTask._process`
is re-raised by the inherited `Task.run` (the `except Exception: raise`
at task.py:33-35), so the scheduler's worker loop — which awaits
`task.run()` with no error handling of its own (handlers.py:508-512) —
observes it.  Concretely: the try-block body raises, and the status-edit
call inside the `except` handler (transcript_task.py:194) itself fails;
the resulting exception escapes `run()`. -/
theorem task_run_reraises_counterexample :
    TranscriptTask.runOn
      ⟨7, some "dQw4w9WgXcQ", "https://youtu.be/dQw4w9WgXcQ", "es",
        "Spanish", "T", "T", 1, 10, 0, 0⟩
      ⟨[Ev.editStatus "⏳ Downloading subtitles..."],
        some (.genericErr "boom"), some (.genericErr "edit failed")⟩ =
    some { events := [Ev.editStatus "⏳ Downloading subtitles..."]
           raised := some (.genericErr "edit failed")
           cleanupRan := true } := rfl

/-- C1 (amended): `DownloadTask.run` catches every exception from its
processing step and never re-raises (its `except` clauses cover
`asyncio.TimeoutError`, `DownloadError` and `Exception`), so the worker
loop never observes a `DownloadTask` failure; but the base `Task.run`,
inherited by `TranscriptTask`, re-raises exactly the exception that
escapes `_process` (after running cleanup), so the worker loop can
observe a `TranscriptTask` failure whose exception gets past
`_process`'s internal handler. -/
theorem task_boundary_error_policy :
    (∀ (cookies : Bool) (t : DTask) (beh : ProcBeh),
      (DownloadTask.runModel cookies t beh).raised = none) ∧
    (∀ (events : List Ev) (e : Exc),
      Task.runModel (.resolves events (.error e)) =
        some ⟨events, some e, true⟩) ∧
    (∀ events : List Ev,
      Task.runModel (.resolves events (.ok ())) =
        some ⟨events, none, true⟩) := by
  refine ⟨fun cookies t beh => ?_, fun events e => rfl, fun events => rfl⟩
  cases beh with
  | hangs events => rfl
  | resolves events result => cases result <;> rfl

/-- Witness for `task_boundary_error_policy`: a `DownloadTask` whose
processing raises a generic error completes `run()` without raising. -/
theorem task_boundary_error_policy_witness :
    (DownloadTask.runModel true
      ⟨7, some "dQw4w9WgXcQ", "https://youtu.be/dQw4w9WgXcQ", 1, 10, 11, 0, 0⟩
      (.resolves [] (.error (.genericErr "boom")))).raised = none :=
  task_boundary_error_policy.1 true _ _

/-- C3 counterexample: the base `Task.run` (task.py:27-37) wraps
`_process` in no `asyncio.wait_for`, so a `TranscriptTask` (which
inherits it) whose processing never resolves within 600 seconds is
never forced to any terminal state: `run` never completes, no
"timed out" status is shown and no "failed" ledger row is written —
refuting the claim that *every* Task is forcibly failed at 600
seconds. -/
theorem task_run_no_timeout_counterexample :
    Task.runModel (.hangs []) = none := rfl

/-- C3 (amended): only `DownloadTask.run` enforces the 600-second
wall-clock timeout (`asyncio.wait_for(self._process(), timeout=600)`,
download_task.py:77): a `DownloadTask` whose processing does not
resolve within 600 seconds completes `run()` without raising, shows the
distinct "timed out" status (different from the generic-failure text),
and writes a "failed" ledger row keyed by its original message id —
provided the task has an extracted video id; with no video id the
timeout writes no ledger row.  `TranscriptTask` inherits the base
`Task.run`, which applies no timeout. -/
theorem task_timeout_policy (cookies : Bool) (t : DTask) (events : List Ev)
    (v : String) (hv : t.videoId = some v) :
    DownloadTask.runModel cookies t (.hangs events) =
      { events := events ++
          [Ev.editStatus "❌ Task timed out after 10 minutes.",
           Ev.videoLedger t.chatId v t.originalMessageId "failed"]
        raised := none
        cleanupRan := true } ∧
    ("❌ Task timed out after 10 minutes." ≠ "❌ Error processing video.") ∧
    (∀ t2 : DTask, t2.videoId = none →
      DownloadTask.runModel cookies t2 (.hangs events) =
        { events := events ++
            [Ev.editStatus "❌ Task timed out after 10 minutes."]
          raised := none
          cleanupRan := true }) ∧
    Task.runModel (.hangs events) = none := by
  refine ⟨?_, by decide, fun t2 h2 => ?_, rfl⟩
  · simp [DownloadTask.runModel, downloadTimeoutEvents, hv]
  · simp [DownloadTask.runModel, downloadTimeoutEvents, h2]

/-- Witness for `task_timeout_policy`: a concrete hung `DownloadTask`
for video `"dQw4w9WgXcQ"` in chat 7 triggered by message 10. -/
theorem task_timeout_policy_witness :
    DownloadTask.runModel true
      ⟨7, some "dQw4w9WgXcQ", "https://youtu.be/dQw4w9WgXcQ", 1, 10, 11, 0, 0⟩
      (.hangs []) =
      { events := [Ev.editStatus "❌ Task timed out after 10 minutes.",
          Ev.videoLedger 7 "dQw4w9WgXcQ" 10 "failed"]
        raised := none
        cleanupRan := true } := by
  have := (task_timeout_policy true
    ⟨7, some "dQw4w9WgXcQ", "https://youtu.be/dQw4w9WgXcQ", 1, 10, 11, 0, 0⟩
    [] "dQw4w9WgXcQ" rfl).1
  simpa using this

/-! ## C9: subtitle selection -/

lemma subtitleRank_lt_6 (target g : String) : subtitleRank target g < 6 := by
  by_cases h1 : hasLangTag target g <;> by_cases h2 : hasLangTag "en" g <;>
    by_cases h3 : hasAutoTag g <;> simp [subtitleRank, h1, h2, h3]

lemma bucket0_eq (target : String) (files : List String) :
    files.filter (fun f => hasLangTag target f && !hasAutoTag f) =
    files.filter (fun g => subtitleRank target g = 0) := by
  apply List.filter_congr
  intro g _
  by_cases h1 : hasLangTag target g <;> by_cases h2 : hasLangTag "en" g <;>
    by_cases h3 : hasAutoTag g <;> simp [subtitleRank, h1, h2, h3]

lemma bucket1_eq (target : String) (files : List String) :
    files.filter (fun f => hasLangTag target f && hasAutoTag f) =
    files.filter (fun g => subtitleRank target g = 1) := by
  apply List.filter_congr
  intro g _
  by_cases h1 : hasLangTag target g <;> by_cases h2 : hasLangTag "en" g <;>
    by_cases h3 : hasAutoTag g <;> simp [subtitleRank, h1, h2, h3]

lemma bucket2_eq (target : String) (files : List String) :
    files.filter (fun f =>
      !hasLangTag target f && hasLangTag "en" f && !hasAutoTag f) =
    files.filter (fun g => subtitleRank target g = 2) := by
  apply List.filter_congr
  intro g _
  by_cases h1 : hasLangTag target g <;> by_cases h2 : hasLangTag "en" g <;>
    by_cases h3 : hasAutoTag g <;> simp [subtitleRank, h1, h2, h3]

lemma bucket3_eq (target : String) (files : List String) :
    files.filter (fun f =>
      !hasLangTag target f && hasLangTag "en" f && hasAutoTag f) =
    files.filter (fun g => subtitleRank target g = 3) := by
  apply List.filter_congr
  intro g _
  by_cases h1 : hasLangTag target g <;> by_cases h2 : hasLangTag "en" g <;>
    by_cases h3 : hasAutoTag g <;> simp [subtitleRank, h1, h2, h3]

lemma bucket4_eq (target : String) (files : List String) :
    files.filter (fun f =>
      !hasLangTag target f && !hasLangTag "en" f && !hasAutoTag f) =
    files.filter (fun g => subtitleRank target g = 4) := by
  apply List.filter_congr
  intro g _
  by_cases h1 : hasLangTag target g <;> by_cases h2 : hasLangTag "en" g <;>
    by_cases h3 : hasAutoTag g <;> simp [subtitleRank, h1, h2, h3]

lemma bucket5_eq (target : String) (files : List String) :
    files.filter (fun f =>
      !hasLangTag target f && !hasLangTag "en" f && hasAutoTag f) =
    files.filter (fun g => subtitleRank target g = 5) := by
  apply List.filter_congr
  intro g _
  by_cases h1 : hasLangTag target g <;> by_cases h2 : hasLangTag "en" g <;>
    by_cases h3 : hasAutoTag g <;> simp [subtitleRank, h1, h2, h3]

lemma head_filter_facts {p : String → Bool} {files rest : List String}
    {f : String} (h : files.filter p = f :: rest) :
    f ∈ files ∧ p f = true := by
  have hmem : f ∈ files.filter p := by rw [h]; exact List.mem_cons_self f rest
  exact ⟨List.mem_of_mem_filter hmem, List.of_mem_filter hmem⟩

/-- C9 helper: the head of the rank-`b` bucket is the selected file's
full characterisation, given that no file beats rank `b`. -/
lemma selected_of_bucket {target : String} {files rest : List String}
    {f : String} {b : Nat}
    (hb : files.filter (fun g => subtitleRank target g = b) = f :: rest)
    (hmin : ∀ g ∈ files, b ≤ subtitleRank target g) :
    f ∈ files ∧
    (∀ g ∈ files, subtitleRank target f ≤ subtitleRank target g) ∧
    (files.filter (fun g =>
      subtitleRank target g = subtitleRank target f)).head? = some f := by
  obtain ⟨hmem, hp⟩ := head_filter_facts hb
  simp only [decide_eq_true_eq] at hp
  refine ⟨hmem, ?_, ?_⟩
  · intro g hg
    rw [hp]
    exact hmin g hg
  · rw [hp, hb]
    rfl

/-- C9: `_find_best_subtitle_file` selects the first file (in download
order) of the first non-empty class under the fixed priority order —
manual target-language, auto target-language, manual English, auto
English, any other manual, any other auto (`subtitleRank` 0-5) — and in
particular, when the only available track is auto-generated English and
the target language is Spanish, that auto-English track is selected. -/
theorem subtitle_priority_selection :
    (∀ (target : String) (files : List String) (f : String),
      findBestSubtitleFile target files = some f →
        f ∈ files ∧
        (∀ g ∈ files, subtitleRank target f ≤ subtitleRank target g) ∧
        (files.filter (fun g =>
          subtitleRank target g = subtitleRank target f)).head? = some f) ∧
    findBestSubtitleFile "es" ["dQw4w9WgXcQ.en.auto.vtt"] =
      some "dQw4w9WgXcQ.en.auto.vtt" := by
  constructor
  · intro target files f h
    simp only [findBestSubtitleFile] at h
    rw [bucket0_eq, bucket1_eq, bucket2_eq, bucket3_eq, bucket4_eq,
      bucket5_eq] at h
    rcases h0 : files.filter (fun g => subtitleRank target g = 0) with _ | ⟨f0, r0⟩
    swap
    · rw [h0] at h
      simp only [Option.some.injEq] at h
      subst h
      exact selected_of_bucket h0 (fun g _ => Nat.zero_le _)
    rw [h0] at h
    have h0n := List.filter_eq_nil_iff.mp h0
    simp only [decide_eq_true_eq] at h0n
    rcases h1 : files.filter (fun g => subtitleRank target g = 1) with _ | ⟨f1, r1⟩
    swap
    · rw [h1] at h
      simp only [Option.some.injEq] at h
      subst h
      refine selected_of_bucket h1 (fun g hg => ?_)
      have := h0n g hg
      omega
    rw [h1] at h
    have h1n := List.filter_eq_nil_iff.mp h1
    simp only [decide_eq_true_eq] at h1n
    rcases h2 : files.filter (fun g => subtitleRank target g = 2) with _ | ⟨f2, r2⟩
    swap
    · rw [h2] at h
      simp only [Option.some.injEq] at h
      subst h
      refine selected_of_bucket h2 (fun g hg => ?_)
      have := h0n g hg
      have := h1n g hg
      omega
    rw [h2] at h
    have h2n := List.filter_eq_nil_iff.mp h2
    simp only [decide_eq_true_eq] at h2n
    rcases h3 : files.filter (fun g => subtitleRank target g = 3) with _ | ⟨f3, r3⟩
    swap
    · rw [h3] at h
      simp only [Option.some.injEq] at h
      subst h
      refine selected_of_bucket h3 (fun g hg => ?_)
      have := h0n g hg
      have := h1n g hg
      have := h2n g hg
      omega
    rw [h3] at h
    have h3n := List.filter_eq_nil_iff.mp h3
    simp only [decide_eq_true_eq] at h3n
    rcases h4 : files.filter (fun g => subtitleRank target g = 4) with _ | ⟨f4, r4⟩
    swap
    · rw [h4] at h
      simp only [Option.some.injEq] at h
      subst h
      refine selected_of_bucket h4 (fun g hg => ?_)
      have := h0n g hg
      have := h1n g hg
      have := h2n g hg
      have := h3n g hg
      omega
    rw [h4] at h
    have h4n := List.filter_eq_nil_iff.mp h4
    simp only [decide_eq_true_eq] at h4n
    rcases h5 : files.filter (fun g => subtitleRank target g = 5) with _ | ⟨f5, r5⟩
    swap
    · rw [h5] at h
      simp only [Option.some.injEq] at h
      subst h
      refine selected_of_bucket h5 (fun g hg => ?_)
      have := h0n g hg
      have := h1n g hg
      have := h2n g hg
      have := h3n g hg
      have := h4n g hg
      omega
    rw [h5] at h
    have h5n := List.filter_eq_nil_iff.mp h5
    simp only [decide_eq_true_eq] at h5n
    exfalso
    cases hfiles : files with
    | nil =>
      rw [hfiles] at h
      simp at h
    | cons a l =>
      have ha : a ∈ files := by rw [hfiles]; exact List.mem_cons_self a l
      have := h0n a ha
      have := h1n a ha
      have := h2n a ha
      have := h3n a ha
      have := h4n a ha
      have := h5n a ha
      have := subtitleRank_lt_6 target a
      omega
  · rfl

/-- Witness for `subtitle_priority_selection`: with target `"es"`, the
manual Spanish track is selected over an earlier auto-English one. -/
theorem subtitle_priority_selection_witness :
    "y.es.vtt" ∈ ["x.en.auto.vtt", "y.es.vtt"] ∧
    (∀ g ∈ ["x.en.auto.vtt", "y.es.vtt"],
      subtitleRank "es" "y.es.vtt" ≤ subtitleRank "es" g) ∧
    (["x.en.auto.vtt", "y.es.vtt"].filter (fun g =>
      subtitleRank "es" g = subtitleRank "es" "y.es.vtt")).head? =
      some "y.es.vtt" :=
  subtitle_priority_selection.1 "es" ["x.en.auto.vtt", "y.es.vtt"]
    "y.es.vtt" rfl

/-! ## C8: video-id extraction -/

lemma dropWhile_slash_of_no_slash {l : List Char} (h : '/' ∉ l) :
    l.dropWhile (· = '/') = l := by
  cases l with
  | nil => rfl
  | cons c r =>
    have hc : ¬(c = '/') := fun hc => h (hc ▸ List.mem_cons_self c r)
    simp [List.dropWhile_cons, hc]

lemma stripSlashes_slash_append {s : String} (h : '/' ∉ s.toList) :
    stripSlashes ("/" ++ s) = s := by
  unfold stripSlashes
  have h1 : ("/" ++ s).toList = '/' :: s.toList := rfl
  rw [h1]
  have h2 : ('/' :: s.toList).dropWhile (· = '/') =
      s.toList.dropWhile (· = '/') := by
    simp [List.dropWhile_cons]
  rw [h2, dropWhile_slash_of_no_slash h]
  have h3 : '/' ∉ s.toList.reverse := by simpa using h
  rw [dropWhile_slash_of_no_slash h3, List.reverse_reverse]
  rfl

lemma splitShortsGo_cons_ne (acc : List Char) (c : Char) (r : List Char)
    (hc : c ≠ '/') :
    splitShortsGo acc (c :: r) = splitShortsGo (c :: acc) r := by
  rw [splitShortsGo.eq_def]
  split
  · rename_i heq
    cases heq
    exact absurd rfl hc
  · rename_i c2 r2 heq
    cases heq
    rfl
  · rename_i heq
    cases heq

lemma splitShortsGo_no_slash (l : List Char) :
    ∀ acc : List Char, '/' ∉ l → splitShortsGo acc l = [acc.reverse ++ l] := by
  induction l with
  | nil => intro acc _; simp [splitShortsGo]
  | cons c r ih =>
    intro acc h
    have hc : c ≠ '/' := fun hcc => h (hcc ▸ List.mem_cons_self c r)
    rw [splitShortsGo_cons_ne acc c r hc,
      ih (c :: acc) (fun hm => h (List.mem_cons_of_mem c hm))]
    simp

lemma splitSlashGo_cons_ne (acc : List Char) (c : Char) (r : List Char)
    (hc : c ≠ '/') :
    splitSlashGo acc (c :: r) = splitSlashGo (c :: acc) r := by
  rw [splitSlashGo.eq_def]
  split
  · rename_i heq
    cases heq
    exact absurd rfl hc
  · rename_i c2 r2 heq
    cases heq
    rfl
  · rename_i heq
    cases heq

lemma splitSlashGo_no_slash (l : List Char) :
    ∀ acc : List Char, '/' ∉ l → splitSlashGo acc l = [acc.reverse ++ l] := by
  induction l with
  | nil => intro acc _; simp [splitSlashGo]
  | cons c r ih =>
    intro acc h
    have hc : c ≠ '/' := fun hcc => h (hcc ▸ List.mem_cons_self c r)
    rw [splitSlashGo_cons_ne acc c r hc,
      ih (c :: acc) (fun hm => h (List.mem_cons_of_mem c hm))]
    simp

lemma containsSub_shorts_append (l : List Char) :
    containsSub "/shorts/".toList ("/shorts/".toList ++ l) = true := by
  show containsSub ['/', 's', 'h', 'o', 'r', 't', 's', '/']
    (['/', 's', 'h', 'o', 'r', 't', 's', '/'] ++ l) = true
  simp [containsSub, List.isPrefixOf]

lemma matchesVid_no_slash {s : String} (h : matchesVid s = true) :
    '/' ∉ s.toList := by
  intro hm
  simp only [matchesVid, Bool.and_eq_true, List.all_eq_true,
    decide_eq_true_eq] at h
  exact absurd (h.2 '/' hm) (by decide)

lemma matchesVid_ne_empty {s : String} (h : matchesVid s = true) : s ≠ "" := by
  intro he
  subst he
  simp [matchesVid] at h

/-- C8 helper: evaluation of `get_video_id` on a shortlink. -/
lemma get_video_id_shortlink (s : String) (hns : '/' ∉ s.toList) :
    get_video_id (shortlinkUrl s) =
      if s ≠ "" && matchesVid s then some s else none := by
  simp only [get_video_id, shortlinkUrl]
  rw [show (!allowedHosts.contains (lowerStr ((some "youtu.be").getD ""))) =
    false from rfl]
  rw [show containsSub "youtu.be".toList
    (lowerStr ((some "youtu.be").getD "")).toList = true from rfl]
  simp only [Bool.false_eq_true, if_false, if_true]
  rw [stripSlashes_slash_append hns]

/-- C8 helper: evaluation of `get_video_id` on a watch link. -/
lemma get_video_id_watch (s : String) :
    get_video_id (watchUrl s) =
      if s ≠ "" && matchesVid s then some s else none := by
  simp only [get_video_id, watchUrl]
  rw [show (!allowedHosts.contains
    (lowerStr ((some "www.youtube.com").getD ""))) = false from rfl]
  rw [show containsSub "youtu.be".toList
    (lowerStr ((some "www.youtube.com").getD "")).toList = false from rfl]
  rw [show containsSub "/shorts/".toList (String.toList "/watch") = false
    from rfl]
  rw [List.find?_cons_of_pos _ (by simp)]
  simp only [Bool.false_eq_true, if_false, Option.map_some']

/-- C8 helper: evaluation of `get_video_id` on a shorts link. -/
lemma get_video_id_shorts (s : String) (hns : '/' ∉ s.toList) :
    get_video_id (shortsUrl s) =
      if s ≠ "" && matchesVid s then some s else none := by
  simp only [get_video_id, shortsUrl]
  rw [show (!allowedHosts.contains
    (lowerStr ((some "www.youtube.com").getD ""))) = false from rfl]
  rw [show containsSub "youtu.be".toList
    (lowerStr ((some "www.youtube.com").getD "")).toList = false from rfl]
  rw [show ("/shorts/" ++ s).toList = "/shorts/".toList ++ s.toList from rfl,
    containsSub_shorts_append]
  rw [show ("/shorts/".toList ++ s.toList) =
    '/' :: 's' :: 'h' :: 'o' :: 'r' :: 't' :: 's' :: '/' :: s.toList from rfl]
  rw [show splitShortsGo []
      ('/' :: 's' :: 'h' :: 'o' :: 'r' :: 't' :: 's' :: '/' :: s.toList) =
    List.reverse [] :: splitShortsGo [] s.toList from rfl]
  rw [splitShortsGo_no_slash s.toList [] hns]
  simp only [List.reverse_nil, List.nil_append, List.getLastD_cons,
    List.getLastD_nil]
  rw [splitSlashGo_no_slash s.toList [] hns]
  simp only [List.reverse_nil, List.nil_append, List.headD_cons,
    Bool.false_eq_true, if_false]
  rfl

/-- C8: for every valid 11-character id, all three supported URL shapes
(`youtu.be/{id}`, `youtube.com/watch?v={id}`, `youtube.com/shorts/{id}`)
extract that same id (and extraction is injective on ids); every URL
with a host outside {youtube.com, www.youtube.com, youtu.be} yields
`none`, and every candidate id failing the 11-character `[\w-]` shape
yields `none` in all three shapes. -/
theorem video_id_extraction :
    (∀ id : String, matchesVid id = true →
      get_video_id (shortlinkUrl id) = some id ∧
      get_video_id (watchUrl id) = some id ∧
      get_video_id (shortsUrl id) = some id) ∧
    (∀ id1 id2 : String, matchesVid id1 = true → matchesVid id2 = true →
      get_video_id (shortlinkUrl id1) = get_video_id (shortlinkUrl id2) →
      id1 = id2) ∧
    (∀ u : ParsedUrl,
      allowedHosts.contains (lowerStr (u.hostname.getD "")) = false →
      get_video_id u = none) ∧
    (∀ s : String, matchesVid s = false → '/' ∉ s.toList →
      get_video_id (shortlinkUrl s) = none ∧
      get_video_id (watchUrl s) = none ∧
      get_video_id (shortsUrl s) = none) := by
  have heval : ∀ id : String, matchesVid id = true →
      get_video_id (shortlinkUrl id) = some id ∧
      get_video_id (watchUrl id) = some id ∧
      get_video_id (shortsUrl id) = some id := by
    intro id h
    have hns := matchesVid_no_slash h
    have hne := matchesVid_ne_empty h
    rw [get_video_id_shortlink id hns, get_video_id_watch id,
      get_video_id_shorts id hns]
    simp [h, hne]
  refine ⟨heval, fun id1 id2 h1 h2 heq => ?_, fun u h => ?_,
    fun s h hns => ?_⟩
  · rw [(heval id1 h1).1, (heval id2 h2).1] at heq
    exact Option.some.inj heq
  · simp only [get_video_id]
    rw [h]
    rfl
  · rw [get_video_id_shortlink s hns, get_video_id_watch s,
      get_video_id_shorts s hns]
    simp [h]

/-- Witness for `video_id_extraction`: the id `"dQw4w9WgXcQ"` is
extracted identically from all three URL shapes, a Vimeo host yields
`none`, and a 10-character id yields `none` everywhere. -/
theorem video_id_extraction_witness :
    (get_video_id (shortlinkUrl "dQw4w9WgXcQ") = some "dQw4w9WgXcQ" ∧
     get_video_id (watchUrl "dQw4w9WgXcQ") = some "dQw4w9WgXcQ" ∧
     get_video_id (shortsUrl "dQw4w9WgXcQ") = some "dQw4w9WgXcQ") ∧
    get_video_id ⟨some "vimeo.com", "/watch", [("v", "dQw4w9WgXcQ")]⟩ =
      none ∧
    get_video_id (watchUrl "tooshort10") = none :=
  ⟨video_id_extraction.1 "dQw4w9WgXcQ" (by decide),
   video_id_extraction.2.2.1 _ (by decide),
   (video_id_extraction.2.2.2 "tooshort10" (by decide) (by decide)).2.1⟩

/-! ## C5: the media splitter -/

/-- Start time of part `i` (0-indexed) as computed by `split_video`. -/
def partStart (base o : ℚ) (i : ℕ) : ℚ :=
  max ((i : ℚ) * base - o * (i : ℚ)) 0

/-- Extracted duration of part `i` as computed by `split_video`. -/
def partDur (base o : ℚ) (n i : ℕ) : ℚ :=
  base + (if i < n - 1 then o else 0)

lemma splitVideo_ivls (vid : Option String) (S B : ℚ) (D : ℤ) (o : ℚ) :
    (splitVideo vid S B D o).map (fun p => (p.start, p.start + p.dur)) =
      (List.range (⌈S / B⌉).toNat).map (fun i =>
        (partStart ((D : ℚ) / (((⌈S / B⌉).toNat : ℕ) : ℚ)) o i,
         partStart ((D : ℚ) / (((⌈S / B⌉).toNat : ℕ) : ℚ)) o i +
           partDur ((D : ℚ) / (((⌈S / B⌉).toNat : ℕ) : ℚ)) o
             (⌈S / B⌉).toNat i)) := by
  simp only [splitVideo, List.map_map]
  rfl

/-- A list of rational intervals forms a chain from `a`: the first
interval starts at or before `a`, and each interval starts at or before
the previous interval's end. -/
def ivlChainFrom (a : ℚ) : List (ℚ × ℚ) → Prop
  | [] => True
  | (s, e) :: rest => s ≤ a ∧ ivlChainFrom e rest

/-- The last interval's end (or `a` for the empty list). -/
def endBound (a : ℚ) : List (ℚ × ℚ) → ℚ
  | [] => a
  | (_, e) :: rest => endBound e rest

/-- A chain of intervals from `a` covers everything between `a` and the
last interval's end. -/
lemma ivl_chain_cover :
    ∀ (l : List (ℚ × ℚ)) (a t : ℚ), l ≠ [] → ivlChainFrom a l →
      a ≤ t → t ≤ endBound a l → ∃ p ∈ l, p.1 ≤ t ∧ t ≤ p.2 := by
  intro l
  induction l with
  | nil => intro a t hne; exact absurd rfl hne
  | cons p rest ih =>
    intro a t _ hch hat hte
    obtain ⟨s, e⟩ := p
    obtain ⟨hsa, hch2⟩ := hch
    by_cases hte2 : t ≤ e
    · exact ⟨(s, e), List.mem_cons_self _ _, le_trans hsa hat, hte2⟩
    · push_neg at hte2
      rcases hr : rest with _ | ⟨q, rest2⟩
      · subst hr
        have : endBound a [(s, e)] = e := rfl
        rw [this] at hte
        exact absurd hte (not_le.mpr hte2)
      · subst hr
        have hte3 : t ≤ endBound e (q :: rest2) := hte
        obtain ⟨p2, hmem, hp2⟩ :=
          ih e t (by simp) hch2 (le_of_lt hte2) hte3
        exact ⟨p2, List.mem_cons_of_mem _ hmem, hp2⟩

lemma partStart_zero (base o : ℚ) : partStart base o 0 = 0 := by
  simp [partStart]

/-- The parts produced by `split_video` chain: each part starts at or
before the previous part's end. -/
lemma split_chainAux (base o : ℚ) (n : ℕ) (ho : 0 ≤ o) (hbase : 0 ≤ base) :
    ∀ (k i : ℕ) (a : ℚ), partStart base o i ≤ a →
      ivlChainFrom a ((List.range' i k).map (fun j =>
        (partStart base o j, partStart base o j + partDur base o n j))) := by
  intro k
  induction k with
  | zero => intro i a _; trivial
  | succ k ih =>
    intro i a hia
    rw [List.range'_succ, List.map_cons]
    refine ⟨hia, ih (i + 1) _ ?_⟩
    have h0 : (0 : ℚ) ≤ (if i < n - 1 then o else (0 : ℚ)) := by
      split <;> simp [ho]
    have h1 : (i : ℚ) * base - o * (i : ℚ) ≤ partStart base o i :=
      le_max_left _ _
    have h2 : (0 : ℚ) ≤ partStart base o i := le_max_right _ _
    apply max_le
    · push_cast
      unfold partDur
      linarith
    · unfold partDur
      linarith

/-- The last part's end is `endBound` of the chain. -/
lemma split_endBoundAux (base o : ℚ) (n : ℕ) :
    ∀ (k i : ℕ) (a : ℚ),
      endBound a ((List.range' i (k + 1)).map (fun j =>
        (partStart base o j, partStart base o j + partDur base o n j))) =
      partStart base o (i + k) + partDur base o n (i + k) := by
  intro k
  induction k with
  | zero => intro i a; rfl
  | succ k ih =>
    intro i a
    rw [List.range'_succ, List.map_cons]
    have : endBound a ((partStart base o i,
        partStart base o i + partDur base o n i) ::
        (List.range' (i + 1) (k + 1)).map (fun j =>
          (partStart base o j, partStart base o j + partDur base o n j))) =
      endBound (partStart base o i + partDur base o n i)
        ((List.range' (i + 1) (k + 1)).map (fun j =>
          (partStart base o j, partStart base o j + partDur base o n j))) := rfl
    rw [this, ih (i + 1) _]
    have harith : i + 1 + k = i + (k + 1) := by omega
    rw [harith]

/-- C5 counterexample: for a 80 MB file with a 40 MB budget, 100 s
probed duration and 5 s overlap, `split_video` produces two parts
covering `[0, 55]` and `[45, 95]`: the moment `t = 98` lies inside the
source duration `[0, 100]` but inside no part, refuting the claim that
the parts' time ranges cover the full source duration. -/
theorem splitter_coverage_counterexample :
    splitVideo (some "v") 80 40 100 5 =
      [⟨"part_1_v.mp4", 0, 55⟩, ⟨"part_2_v.mp4", 45, 50⟩] ∧
    ((0 : ℚ) ≤ 98 ∧ (98 : ℚ) ≤ 100) ∧
    ∀ p ∈ splitVideo (some "v") 80 40 100 5,
      ¬(p.start ≤ 98 ∧ (98 : ℚ) ≤ p.start + p.dur) := by
  have heval : splitVideo (some "v") 80 40 100 5 =
      [⟨"part_1_v.mp4", 0, 55⟩, ⟨"part_2_v.mp4", 45, 50⟩] := by
    have hc : ((⌈(80 : ℚ) / 40⌉).toNat) = 2 := by
      rw [show ⌈(80 : ℚ) / 40⌉ = 2 from by norm_num]
      rfl
    simp only [splitVideo, hc]
    norm_num [List.range_succ]
    exact ⟨rfl, rfl⟩
  refine ⟨heval, by norm_num, ?_⟩
  rw [heval]
  intro p hp
  rcases List.mem_cons.mp hp with h | h
  · subst h
    intro hcon
    norm_num at hcon
  · rcases List.mem_cons.mp h with h2 | h2
    · subst h2
      intro hcon
      norm_num at hcon
    · simp at h2

/-- C5 (amended): for a file of `S` MB, part budget `B` MB, probed
duration `D` and overlap `o`, `split_video` produces exactly
`ceil(S/B)` parts; part `i` (0-indexed) starts at
`max(i*base - o*i, 0)` with `base = D / ceil(S/B)`; every part except
the last has duration `base + o` and the last has duration `base`; and
— provided the per-part duration is at least the overlap
(`o ≤ base`) — the union of the parts' time ranges covers
`[0, D - o*(ceil(S/B) - 1)]`, which falls short of the full source
duration `[0, D]` by `o*(ceil(S/B) - 1)` seconds. -/
theorem splitter_spec (vid : Option String) (S B : ℚ) (D : ℤ) (o : ℚ)
    (hS : 0 < S) (hB : 0 < B) (ho : 0 ≤ o) :
    (splitVideo vid S B D o).length = (⌈S / B⌉).toNat ∧
    ((splitVideo vid S B D o).map MediaPart.start =
      (List.range (⌈S / B⌉).toNat).map (fun i =>
        partStart ((D : ℚ) / ((⌈S / B⌉).toNat : ℚ)) o i)) ∧
    ((splitVideo vid S B D o).map MediaPart.dur =
      (List.range (⌈S / B⌉).toNat).map (fun i =>
        if i < (⌈S / B⌉).toNat - 1 then
          (D : ℚ) / ((⌈S / B⌉).toNat : ℚ) + o
        else (D : ℚ) / ((⌈S / B⌉).toNat : ℚ))) ∧
    (o ≤ (D : ℚ) / ((⌈S / B⌉).toNat : ℚ) →
      ∀ t : ℚ, 0 ≤ t →
        t ≤ (D : ℚ) - (((⌈S / B⌉).toNat : ℚ) - 1) * o →
        ∃ p ∈ splitVideo vid S B D o,
          p.start ≤ t ∧ t ≤ p.start + p.dur) := by
  refine ⟨by simp [splitVideo], ?_, ?_, ?_⟩
  · simp only [splitVideo, List.map_map]
    rfl
  · simp only [splitVideo, List.map_map]
    apply List.map_congr_left
    intro i _
    by_cases h : i < (⌈S / B⌉).toNat - 1 <;> simp [h]
  · intro hob t ht0 htD
    have hn1 : 1 ≤ (⌈S / B⌉).toNat := by
      have : (0 : ℤ) < ⌈S / B⌉ := Int.ceil_pos.mpr (div_pos hS hB)
      omega
    set n := (⌈S / B⌉).toNat with hn
    set base := (D : ℚ) / (n : ℚ) with hbdef
    have hnQ : ((n : ℕ) : ℚ) ≠ 0 := Nat.cast_ne_zero.mpr (by omega)
    have hbase0 : 0 ≤ base := le_trans ho hob
    have hD : (n : ℚ) * base = (D : ℚ) := by
      rw [hbdef]
      field_simp
    obtain ⟨k, hk⟩ : ∃ k, n = k + 1 := ⟨n - 1, by omega⟩
    have hkc : (k : ℚ) = (n : ℚ) - 1 := by
      rw [hk]
      push_cast
      ring
    -- the last part's end
    have hlast : partStart base o k + partDur base o n k =
        (D : ℚ) - ((n : ℚ) - 1) * o := by
      have hknot : ¬(k < n - 1) := by omega
      have hstk : partStart base o k = (k : ℚ) * base - o * (k : ℚ) := by
        apply max_eq_left
        have : (0 : ℚ) ≤ (k : ℚ) * (base - o) := by
          apply mul_nonneg (Nat.cast_nonneg k)
          linarith
        nlinarith
      rw [hstk]
      unfold partDur
      rw [if_neg hknot, hkc]
      have : ((n : ℚ) - 1) * base + base = (n : ℚ) * base := by ring
      nlinarith [hD]
    have hchain := split_chainAux base o n ho hbase0 n 0 0
      (by rw [partStart_zero])
    have hend := split_endBoundAux base o n k 0 0
    have hne : ((List.range' 0 n).map (fun j =>
        (partStart base o j, partStart base o j + partDur base o n j))) ≠
        [] := by
      rw [hk, List.range'_succ]
      simp
    have hteB : t ≤ endBound 0 ((List.range' 0 n).map (fun j =>
        (partStart base o j, partStart base o j + partDur base o n j))) := by
      have hrw : List.range' 0 n = List.range' 0 (k + 1) := by rw [hk]
      rw [hrw, hend]
      simpa [hlast] using htD
    obtain ⟨pr, hprmem, hpr1, hpr2⟩ :=
      ivl_chain_cover _ 0 t hne hchain ht0 hteB
    rw [← List.range_eq_range'] at hprmem
    have hivls := splitVideo_ivls vid S B D o
    rw [← hn, ← hbdef] at hivls
    rw [← hivls] at hprmem
    obtain ⟨p, hp, heq⟩ := List.mem_map.mp hprmem
    refine ⟨p, hp, ?_, ?_⟩
    · rw [← heq] at hpr1
      exact hpr1
    · rw [← heq] at hpr2
      exact hpr2

/-- Witness for `splitter_spec`: in the 80 MB / 40 MB / 100 s / 5 s
instance, the moment `t = 90` (inside `[0, 95]`) is covered by some
part. -/
theorem splitter_spec_witness :
    ∃ p ∈ splitVideo (some "v") 80 40 100 5,
      p.start ≤ 90 ∧ (90 : ℚ) ≤ p.start + p.dur := by
  have hcast : ((⌈(80 : ℚ) / 40⌉).toNat : ℚ) = 2 := by
    rw [show ⌈(80 : ℚ) / 40⌉ = 2 from by norm_num]
    rfl
  refine (splitter_spec (some "v") 80 40 100 5 (by norm_num) (by norm_num)
    (by norm_num)).2.2.2 ?_ 90 (by norm_num) ?_
  · rw [hcast]
    norm_num
  · rw [hcast]
    norm_num

/-! ## C2: multi-part send -/

/-- The part numbers of the resilient-sender calls in an event list, in
order. -/
def sendIdxs (l : List Ev) : List ℕ :=
  l.filterMap (fun e => match e with
    | .sendPart i _ => some i
    | _ => none)

lemma sendIdxs_append (a b : List Ev) :
    sendIdxs (a ++ b) = sendIdxs a ++ sendIdxs b :=
  List.filterMap_append a b _

lemma sendIdxs_nil : sendIdxs [] = [] := rfl

lemma sendIdxs_cons_edit (s : String) (l : List Ev) :
    sendIdxs (Ev.editStatus s :: l) = sendIdxs l := rfl

lemma sendIdxs_cons_send (i t2 : ℕ) (l : List Ev) :
    sendIdxs (Ev.sendPart i t2 :: l) = i :: sendIdxs l := rfl

lemma sendIdxs_cons_videoLedger (c : Int) (v : String) (m : Int)
    (s : String) (l : List Ev) :
    sendIdxs (Ev.videoLedger c v m s :: l) = sendIdxs l := rfl

lemma sendPartsLoop_ok (send : ℕ → Option Int) (total : ℕ) :
    ∀ idxs : List ℕ, (∀ i ∈ idxs, (send i).isSome) →
      (sendPartsLoop send total idxs).2 = Except.ok () ∧
      sendIdxs (sendPartsLoop send total idxs).1 = idxs := by
  intro idxs
  induction idxs with
  | nil => intro _; exact ⟨rfl, rfl⟩
  | cons j rest ih =>
    intro h
    obtain ⟨mj, hmj⟩ := Option.isSome_iff_exists.mp
      (h j (List.mem_cons_self _ _))
    have hrest := ih (fun i hi => h i (List.mem_cons_of_mem _ hi))
    simp only [sendPartsLoop, hmj]
    refine ⟨hrest.1, ?_⟩
    rw [sendIdxs_append, hrest.2]
    rfl

lemma sendPartsLoop_fail (send : ℕ → Option Int) (total : ℕ) :
    ∀ (pre : List ℕ) (j : ℕ) (post : List ℕ),
      (∀ i ∈ pre, (send i).isSome) → send j = none →
      (sendPartsLoop send total (pre ++ j :: post)).2 =
        Except.error (Exc.genericErr ("Failed to send part " ++
          toString j ++ "/" ++ toString total)) ∧
      sendIdxs (sendPartsLoop send total (pre ++ j :: post)).1 =
        pre ++ [j] := by
  intro pre
  induction pre with
  | nil =>
    intro j post _ hj
    simp [sendPartsLoop, hj, sendIdxs_cons_edit, sendIdxs_cons_send,
      sendIdxs_nil]
  | cons p pre2 ih =>
    intro j post h hj
    obtain ⟨mp, hmp⟩ := Option.isSome_iff_exists.mp
      (h p (List.mem_cons_self _ _))
    have hrest := ih j post (fun i hi => h i (List.mem_cons_of_mem _ hi)) hj
    have hsplit : (p :: pre2) ++ j :: post = p :: (pre2 ++ j :: post) := rfl
    rw [hsplit]
    simp only [sendPartsLoop, hmp]
    refine ⟨hrest.1, ?_⟩
    rw [sendIdxs_append, hrest.2]
    rfl

lemma sendPartsLoop_no_ledger (send : ℕ → Option Int) (total : ℕ) :
    ∀ (idxs : List ℕ) (c : Int) (v : String) (m : Int) (s : String),
      Ev.videoLedger c v m s ∉ (sendPartsLoop send total idxs).1 := by
  intro idxs
  induction idxs with
  | nil => intro c v m s h; simp [sendPartsLoop] at h
  | cons j rest ih =>
    intro c v m s
    cases hj : send j with
    | none =>
      simp [sendPartsLoop, hj]
    | some mj =>
      simp only [sendPartsLoop, hj]
      intro hcon
      rcases List.mem_append.mp hcon with hcon | hcon
      · simp at hcon
      · exact ih c v m s hcon

/-- Splitting `xs ++ a :: ys` at an element occurring in neither side
is unique. -/
lemma append_cons_eq_unique {α : Type} {a : α} :
    ∀ {xs : List α} {l1 ys l2 : List α}, a ∉ xs → a ∉ ys →
      xs ++ a :: ys = l1 ++ a :: l2 → l1 = xs ∧ l2 = ys := by
  intro xs
  induction xs with
  | nil =>
    intro l1 ys l2 _ hys heq
    cases l1 with
    | nil =>
      simp only [List.nil_append, List.cons.injEq, true_and] at heq
      exact ⟨rfl, heq.symm⟩
    | cons b l1b =>
      simp only [List.nil_append, List.cons_append, List.cons.injEq] at heq
      exfalso
      apply hys
      rw [heq.2]
      exact List.mem_append_right _ (List.mem_cons_self _ _)
  | cons x xs2 ih =>
    intro l1 ys l2 hxs hys heq
    cases l1 with
    | nil =>
      simp only [List.cons_append, List.nil_append, List.cons.injEq] at heq
      exact absurd (heq.1 ▸ List.mem_cons_self x xs2) hxs
    | cons b l1b =>
      simp only [List.cons_append, List.cons.injEq] at heq
      have hxs2 : a ∉ xs2 := fun hm => hxs (List.mem_cons_of_mem _ hm)
      obtain ⟨he1, he2⟩ := ih hxs2 hys heq.2
      exact ⟨by rw [heq.1, he1], he2⟩

/-- The number of parts the splitter yields for the downloaded file in
the splitting branch of `_process`. -/
def multipartCount (t : DTask) (env : DEnv) : ℕ :=
  (splitVideo t.videoId ((env.sizeBytes : ℚ) / (1024 * 1024)) 40
    env.duration 5).length

/-- The two status edits that precede the send loop in the splitting
branch. -/
def dlPrefix : List Ev :=
  [Ev.editStatus "⏬ Downloading video (360p)...",
   Ev.editStatus "📦 Downloaded. Splitting..."]

/-- C2 helper: evaluation of `_process` in the splitting branch. -/
lemma processModel_multipart (t : DTask) (env : DEnv)
    (hmeta : env.metaErr = none) (hdl : env.dlErr = none)
    (hex : env.fileExists = true) (hsz : 1024 ≤ env.sizeBytes)
    (hbig : (50 : ℚ) < (env.sizeBytes : ℚ) / (1024 * 1024)) :
    DownloadTask.processModel t env =
      match (sendPartsLoop env.sendResult (multipartCount t env)
          (List.range' 1 (multipartCount t env))).2 with
      | .error e =>
        (dlPrefix ++ (sendPartsLoop env.sendResult (multipartCount t env)
          (List.range' 1 (multipartCount t env))).1, Except.error e)
      | .ok _ =>
        (dlPrefix ++ (sendPartsLoop env.sendResult (multipartCount t env)
          (List.range' 1 (multipartCount t env))).1 ++
          (match t.videoId with
           | some v =>
             [Ev.videoLedger t.chatId v t.originalMessageId "success",
              Ev.editStatus "✅ Sent to Telegram"]
           | none => []),
         Except.ok ()) := by
  simp only [DownloadTask.processModel, hmeta, hdl, hex, Bool.not_true,
    Bool.false_or, decide_eq_true_eq, multipartCount, dlPrefix]
  rw [if_neg (Nat.not_lt.mpr hsz)]
  rw [if_pos hbig]
  rfl

/-- C2: in the splitting branch of a `DownloadTask` with an extracted
video id, (1) if a part's send fails (first failure at part `i`), the
task attempts exactly parts `1..i` and aborts — no "success" ledger
write of any kind occurs, and the "failed" row written by `run` is
keyed by the original triggering message id; (2) every ledger write the
task performs is keyed `(chat, video id, original message id)` — never
by a message created mid-task; (3) the "success" row is written iff
every part's send returned success, and (4) only after all parts'
sends; (5) `run` never re-raises. -/
theorem multipart_send_policy (cookies : Bool) (t : DTask) (env : DEnv)
    (v : String)
    (hv : t.videoId = some v)
    (hmeta : env.metaErr = none) (hdl : env.dlErr = none)
    (hex : env.fileExists = true) (hsz : 1024 ≤ env.sizeBytes)
    (hbig : (50 : ℚ) < (env.sizeBytes : ℚ) / (1024 * 1024)) :
    (∀ i : ℕ, 1 ≤ i → i ≤ multipartCount t env → env.sendResult i = none →
      (∀ k, 1 ≤ k → k < i → (env.sendResult k).isSome) →
      sendIdxs (DownloadTask.runOn cookies t env).events = List.range' 1 i ∧
      (∀ (c : Int) (vid2 : String) (m : Int),
        Ev.videoLedger c vid2 m "success" ∉
          (DownloadTask.runOn cookies t env).events) ∧
      Ev.videoLedger t.chatId v t.originalMessageId "failed" ∈
        (DownloadTask.runOn cookies t env).events) ∧
    (∀ (c : Int) (vid2 : String) (m : Int) (s : String),
      Ev.videoLedger c vid2 m s ∈ (DownloadTask.runOn cookies t env).events →
      c = t.chatId ∧ vid2 = v ∧ m = t.originalMessageId) ∧
    (Ev.videoLedger t.chatId v t.originalMessageId "success" ∈
        (DownloadTask.runOn cookies t env).events ↔
      ∀ k, 1 ≤ k → k ≤ multipartCount t env → (env.sendResult k).isSome) ∧
    (∀ l1 l2 : List Ev,
      (DownloadTask.runOn cookies t env).events =
        l1 ++ Ev.videoLedger t.chatId v t.originalMessageId "success" :: l2 →
      sendIdxs l1 = List.range' 1 (multipartCount t env)) ∧
    (DownloadTask.runOn cookies t env).raised = none := by
  have hproc := processModel_multipart t env hmeta hdl hex hsz hbig
  set n := multipartCount t env with hn
  set L := sendPartsLoop env.sendResult n (List.range' 1 n) with hLdef
  have houtOk : (∀ k ∈ List.range' 1 n, (env.sendResult k).isSome) →
      DownloadTask.runOn cookies t env =
        ⟨dlPrefix ++ (L.1 ++
          [Ev.videoLedger t.chatId v t.originalMessageId "success",
           Ev.editStatus "✅ Sent to Telegram"]), none, true⟩ ∧
      sendIdxs L.1 = List.range' 1 n := by
    intro hall
    have hok := sendPartsLoop_ok env.sendResult n (List.range' 1 n) hall
    rw [← hLdef] at hok
    refine ⟨?_, hok.2⟩
    simp only [DownloadTask.runOn]
    rw [hproc, hok.1]
    simp [DownloadTask.runModel, hv, List.append_assoc]
  have houtFail : ∀ i : ℕ, 1 ≤ i → i ≤ n → env.sendResult i = none →
      (∀ k, 1 ≤ k → k < i → (env.sendResult k).isSome) →
      DownloadTask.runOn cookies t env =
        ⟨dlPrefix ++ (L.1 ++
          [Ev.editStatus "❌ Error processing video.",
           Ev.videoLedger t.chatId v t.originalMessageId "failed"]),
         none, true⟩ ∧
      sendIdxs L.1 = List.range' 1 (i - 1) ++ [i] := by
    intro i hi1 hin hfail hfirst
    have hdecomp : List.range' 1 (i - 1) ++ List.range' i (n - i + 1) =
        List.range' 1 n := by
      have h := List.range'_append 1 (i - 1) (n - i + 1) 1
      simp only [one_mul] at h
      rw [show 1 + (i - 1) = i from by omega] at h
      rw [show n - i + 1 + (i - 1) = n from by omega] at h
      simpa using h
    have hpre : ∀ k ∈ List.range' 1 (i - 1), (env.sendResult k).isSome := by
      intro k hk
      rw [List.mem_range'_1] at hk
      exact hfirst k (by omega) (by omega)
    have hcons : List.range' i (n - i + 1) =
        i :: List.range' (i + 1) (n - i) := List.range'_succ i (n - i) 1
    have hloop := sendPartsLoop_fail env.sendResult n (List.range' 1 (i - 1))
      i (List.range' (i + 1) (n - i)) hpre hfail
    rw [← hcons, hdecomp] at hloop
    rw [← hLdef] at hloop
    refine ⟨?_, hloop.2⟩
    simp only [DownloadTask.runOn]
    rw [hproc, hloop.1]
    simp [DownloadTask.runModel, downloadGenericErrorEvents, hv,
      List.append_assoc]
  have hnoLedgerL : ∀ (c : Int) (vid2 : String) (m : Int) (s : String),
      Ev.videoLedger c vid2 m s ∉ L.1 := by
    intro c vid2 m s
    rw [hLdef]
    exact sendPartsLoop_no_ledger env.sendResult n (List.range' 1 n) c vid2 m s
  have hcases : (∀ k ∈ List.range' 1 n, (env.sendResult k).isSome) ∨
      ∃ i, (1 ≤ i ∧ i ≤ n ∧ env.sendResult i = none) ∧
        ∀ k, 1 ≤ k → k < i → (env.sendResult k).isSome := by
    by_cases hall : ∀ k ∈ List.range' 1 n, (env.sendResult k).isSome
    · exact Or.inl hall
    · right
      push_neg at hall
      obtain ⟨k0, hk0mem, hk0⟩ := hall
      rw [List.mem_range'_1] at hk0mem
      have hk0n : env.sendResult k0 = none := by
        cases h : env.sendResult k0 with
        | none => rfl
        | some mm => rw [h] at hk0; simp at hk0
      have hQ : ∃ i, 1 ≤ i ∧ i ≤ n ∧ env.sendResult i = none :=
        ⟨k0, by omega, by omega, hk0n⟩
      refine ⟨Nat.find hQ, Nat.find_spec hQ, ?_⟩
      intro k hk1 hki
      by_contra hknot
      have hkn : env.sendResult k = none := by
        cases h : env.sendResult k with
        | none => rfl
        | some mm => rw [h] at hknot; simp at hknot
      have hfn := (Nat.find_spec hQ).2.1
      exact Nat.find_min hQ hki ⟨hk1, by omega, hkn⟩
  have hmemIff : ∀ P : ℕ → Prop, (∀ k ∈ List.range' 1 n, P k) ↔
      (∀ k, 1 ≤ k → k ≤ n → P k) := by
    intro P
    constructor
    · intro h k h1 h2
      exact h k (by rw [List.mem_range'_1]; omega)
    · intro h k hk
      rw [List.mem_range'_1] at hk
      exact h k (by omega) (by omega)
  refine ⟨?_, ?_, ?_, ?_, ?_⟩
  · -- (1) abort at first failure
    intro i hi1 hin hfail hfirst
    obtain ⟨hout, hidx⟩ := houtFail i hi1 hin hfail hfirst
    have hevents : (DownloadTask.runOn cookies t env).events =
        dlPrefix ++ (L.1 ++
          [Ev.editStatus "❌ Error processing video.",
           Ev.videoLedger t.chatId v t.originalMessageId "failed"]) := by
      rw [hout]
    refine ⟨?_, ?_, ?_⟩
    · rw [hevents, sendIdxs_append, sendIdxs_append, hidx]
      have h1 : sendIdxs dlPrefix = [] := rfl
      have h2 : sendIdxs [Ev.editStatus "❌ Error processing video.",
          Ev.videoLedger t.chatId v t.originalMessageId "failed"] = [] := rfl
      rw [h1, h2, List.nil_append, List.append_nil]
      have h := List.range'_append 1 (i - 1) 1 1
      simp only [one_mul] at h
      rw [show 1 + (i - 1) = i from by omega] at h
      simpa using h
    · intro c vid2 m hmem
      rw [hevents] at hmem
      rcases List.mem_append.mp hmem with h | h
      · simp [dlPrefix] at h
      · rcases List.mem_append.mp h with h | h
        · exact hnoLedgerL c vid2 m "success" h
        · simp at h
    · rw [hevents]
      simp [dlPrefix]
  · -- (2) all ledger writes keyed by the original message id
    intro c vid2 m s hmem
    rcases hcases with hall | ⟨i, ⟨hi1, hin, hinone⟩, hfirst⟩
    · obtain ⟨hout, _⟩ := houtOk hall
      have hevents : (DownloadTask.runOn cookies t env).events =
          dlPrefix ++ (L.1 ++
            [Ev.videoLedger t.chatId v t.originalMessageId "success",
             Ev.editStatus "✅ Sent to Telegram"]) := by
        rw [hout]
      rw [hevents] at hmem
      rcases List.mem_append.mp hmem with h | h
      · simp [dlPrefix] at h
      · rcases List.mem_append.mp h with h | h
        · exact absurd h (hnoLedgerL c vid2 m s)
        · rcases List.mem_cons.mp h with h | h
          · injection h with h1 h2 h3 h4
            exact ⟨h1, h2, h3⟩
          · simp at h
    · obtain ⟨hout, _⟩ := houtFail i hi1 hin hinone hfirst
      have hevents : (DownloadTask.runOn cookies t env).events =
          dlPrefix ++ (L.1 ++
            [Ev.editStatus "❌ Error processing video.",
             Ev.videoLedger t.chatId v t.originalMessageId "failed"]) := by
        rw [hout]
      rw [hevents] at hmem
      rcases List.mem_append.mp hmem with h | h
      · simp [dlPrefix] at h
      · rcases List.mem_append.mp h with h | h
        · exact absurd h (hnoLedgerL c vid2 m s)
        · rcases List.mem_cons.mp h with h | h
          · simp at h
          · rcases List.mem_cons.mp h with h | h
            · injection h with h1 h2 h3 h4
              exact ⟨h1, h2, h3⟩
            · simp at h
  · -- (3) success written iff every part's send succeeded
    constructor
    · intro hmem
      rcases hcases with hall | ⟨i, ⟨hi1, hin, hinone⟩, hfirst⟩
      · exact (hmemIff _).mp hall
      · obtain ⟨hout, _⟩ := houtFail i hi1 hin hinone hfirst
        have hevents : (DownloadTask.runOn cookies t env).events =
            dlPrefix ++ (L.1 ++
              [Ev.editStatus "❌ Error processing video.",
               Ev.videoLedger t.chatId v t.originalMessageId "failed"]) := by
          rw [hout]
        rw [hevents] at hmem
        exfalso
        rcases List.mem_append.mp hmem with h | h
        · simp [dlPrefix] at h
        · rcases List.mem_append.mp h with h | h
          · exact hnoLedgerL _ _ _ _ h
          · simp at h
    · intro hall
      obtain ⟨hout, _⟩ := houtOk ((hmemIff _).mpr hall)
      have hevents : (DownloadTask.runOn cookies t env).events =
          dlPrefix ++ (L.1 ++
            [Ev.videoLedger t.chatId v t.originalMessageId "success",
             Ev.editStatus "✅ Sent to Telegram"]) := by
        rw [hout]
      rw [hevents]
      simp
  · -- (4) success only after every part's send
    intro l1 l2 heq
    rcases hcases with hall | ⟨i, ⟨hi1, hin, hinone⟩, hfirst⟩
    · obtain ⟨hout, hidx⟩ := houtOk hall
      have hevents : (DownloadTask.runOn cookies t env).events =
          dlPrefix ++ (L.1 ++
            [Ev.videoLedger t.chatId v t.originalMessageId "success",
             Ev.editStatus "✅ Sent to Telegram"]) := by
        rw [hout]
      rw [hevents] at heq
      have heq2 : (dlPrefix ++ L.1) ++
          Ev.videoLedger t.chatId v t.originalMessageId "success" ::
          [Ev.editStatus "✅ Sent to Telegram"] =
          l1 ++ Ev.videoLedger t.chatId v t.originalMessageId "success" ::
            l2 := by
        rw [← heq]
        simp [List.append_assoc]
      have hnot1 : Ev.videoLedger t.chatId v t.originalMessageId "success" ∉
          dlPrefix ++ L.1 := by
        intro hcon
        rcases List.mem_append.mp hcon with h | h
        · simp [dlPrefix] at h
        · exact hnoLedgerL _ _ _ _ h
      have hnot2 : Ev.videoLedger t.chatId v t.originalMessageId "success" ∉
          [Ev.editStatus "✅ Sent to Telegram"] := by simp
      obtain ⟨hl1, _⟩ := append_cons_eq_unique hnot1 hnot2 heq2
      rw [hl1, sendIdxs_append, hidx]
      rfl
    · exfalso
      obtain ⟨hout, _⟩ := houtFail i hi1 hin hinone hfirst
      have hevents : (DownloadTask.runOn cookies t env).events =
          dlPrefix ++ (L.1 ++
            [Ev.editStatus "❌ Error processing video.",
             Ev.videoLedger t.chatId v t.originalMessageId "failed"]) := by
        rw [hout]
      rw [hevents] at heq
      have hmem : Ev.videoLedger t.chatId v t.originalMessageId "success" ∈
          dlPrefix ++ (L.1 ++
            [Ev.editStatus "❌ Error processing video.",
             Ev.videoLedger t.chatId v t.originalMessageId "failed"]) := by
        rw [heq]
        exact List.mem_append_right _ (List.mem_cons_self _ _)
      rcases List.mem_append.mp hmem with h | h
      · simp [dlPrefix] at h
      · rcases List.mem_append.mp h with h | h
        · exact hnoLedgerL _ _ _ _ h
        · simp at h
  · -- (5) run never re-raises
    rcases hcases with hall | ⟨i, ⟨hi1, hin, hinone⟩, hfirst⟩
    · rw [(houtOk hall).1]
    · rw [(houtFail i hi1 hin hinone hfirst).1]

/-- Concrete task for the `multipart_send_policy` witness. -/
def c2WitnessTask : DTask :=
  ⟨7, some "dQw4w9WgXcQ", "https://youtu.be/dQw4w9WgXcQ", 1, 10, 11, 0, 0⟩

/-- Concrete environment for the `multipart_send_policy` witness: an
80 MiB download that splits into 2 parts; part 1 sends, part 2 fails. -/
def c2WitnessEnv : DEnv :=
  ⟨"T", none, none, true, 83886080, 100,
   fun k => if k = 1 then some 100 else none⟩

/-- Witness for `multipart_send_policy`: with part 2's send failing, the
task attempts exactly parts 1 and 2, and the "failed" row is keyed by
the original message id 10. -/
theorem multipart_send_policy_witness :
    sendIdxs (DownloadTask.runOn true c2WitnessTask c2WitnessEnv).events =
      List.range' 1 2 ∧
    Ev.videoLedger 7 "dQw4w9WgXcQ" 10 "failed" ∈
      (DownloadTask.runOn true c2WitnessTask c2WitnessEnv).events := by
  have hcount : multipartCount c2WitnessTask c2WitnessEnv = 2 := by
    unfold multipartCount c2WitnessTask c2WitnessEnv
    rw [show ((83886080 : ℕ) : ℚ) / (1024 * 1024) = 80 from by norm_num]
    have hc : ((⌈(80 : ℚ) / 40⌉).toNat) = 2 := by
      rw [show ⌈(80 : ℚ) / 40⌉ = 2 from by norm_num]
      rfl
    simp [splitVideo, hc]
  have h := multipart_send_policy true c2WitnessTask c2WitnessEnv
    "dQw4w9WgXcQ" rfl rfl rfl rfl (by norm_num [c2WitnessEnv])
    (by norm_num [c2WitnessEnv])
  have h1 := h.1 2 (by norm_num) (by rw [hcount]) rfl
    (fun k hk1 hk2 => by
      have hk : k = 1 := by omega
      subst hk
      rfl)
  exact ⟨h1.1, h1.2.2⟩
